import Mathlib

/-!
Verification of the transaction executor and state changelog of the
cpp-eth-qtum repository (src/libethereum/Executive.cpp and
src/libethereum/State.h) against its natural-language specification.

The world-state operations declared in State.h (addBalance, subBalance,
incNonce, setNewCode, kill, savepoint, rollback, ...) have their bodies in
State.cpp, which is not part of the source tree given here; they are
modelled from the specification (sections 4.1 - 4.3 of the spec), and every
such definition carries a doc comment saying so.  All functions of
Executive.cpp are translated directly from the source.

Machine integers: the source computes the critical quantities (gas bounds,
gas cost, total cost) in `bigint`, an unbounded integer type, and converts
back to u256 only after the guard that makes the conversion safe, so plain
`Nat` arithmetic is a faithful model.
-/

namespace EthExec

/-- 20-byte account identifier (modelled as an unbounded natural). -/
abbrev Address := Nat

/-- Arbitrary byte buffer (each entry is one byte). -/
abbrev Bytes := List Nat

/-! ### Association lists (the account cache and the tries) -/

/-- Lookup of the first entry with key `a`. -/
def alookup {β : Type} (a : Nat) : List (Nat × β) → Option β
  | [] => none
  | (b, v) :: t => if a = b then some v else alookup a t

/-- Replace the first entry with key `a`, or append a fresh one. -/
def aset {β : Type} (a : Nat) (v : β) : List (Nat × β) → List (Nat × β)
  | [] => [(a, v)]
  | (b, w) :: t => if a = b then (a, v) :: t else (b, w) :: aset a v t

/-- Remove every entry with key `a`. -/
def aremove {β : Type} (a : Nat) : List (Nat × β) → List (Nat × β)
  | [] => []
  | (b, w) :: t => if a = b then aremove a t else (b, w) :: aremove a t

/-! ### RLP encoding (libdevcore/RLP): scalars are minimal big-endian byte
strings, fixed-width hashes and addresses are fixed-width byte strings. -/

/-- Minimal big-endian byte string of `n`, with explicit fuel so that the
definition is structural (the kernel can evaluate it).  `beBytesF f n` is
correct whenever `n < 256 ^ f`, which `beBytes` guarantees by taking
`f = n`. -/
def beBytesF : Nat → Nat → Bytes
  | 0, _ => []
  | f + 1, n => if n = 0 then [] else beBytesF f (n / 256) ++ [n % 256]

/-- Minimal big-endian byte string of a scalar (`toCompactBigEndian`). -/
def beBytes (n : Nat) : Bytes := beBytesF n n

/-- Fixed-width big-endian byte string (for h160 / h256 values). -/
def bytesFixed : Nat → Nat → Bytes
  | 0, _ => []
  | w + 1, n => bytesFixed w (n / 256) ++ [n % 256]

/-- RLP encoding of a byte string. -/
def rlpStr (s : Bytes) : Bytes :=
  match s with
  | [b] => if b < 128 then [b] else [129, b]
  | _ =>
    if s.length ≤ 55 then (128 + s.length) :: s
    else
      let lb := beBytes s.length
      (183 + lb.length) :: (lb ++ s)

/-- RLP encoding of a scalar (minimal big-endian byte string). -/
def rlpNat (n : Nat) : Bytes := rlpStr (beBytes n)

/-- RLP list header over an already-encoded payload. -/
def rlpListPayload (payload : Bytes) : Bytes :=
  if payload.length ≤ 55 then (192 + payload.length) :: payload
  else
    let lb := beBytes payload.length
    (247 + lb.length) :: (lb ++ payload)

/-- `rlpList(sender, nonce)` as used by Executive::create: a two-element RLP
list of the 20-byte sender address and the scalar nonce. -/
def rlpList2 (sender : Address) (nonce : Nat) : Bytes :=
  rlpListPayload (rlpStr (bytesFixed 20 sender) ++ rlpNat nonce)

/-- The keccak-256 hash and the low-160-bit truncation are external to the
core (libdevcore); they are kept abstract as parameters. -/
structure Crypto where
  sha3 : Bytes → Nat
  right160 : Nat → Address

/-! ### Error taxonomy (TransactionException) -/

/-- `TransactionException` values used by the executor (spec section 7). -/
inductive TxExc where
  | blockGasLimitReached
  | outOfGasBase
  | invalidSignature
  | invalidNonce
  | notEnoughCash
  | outOfGas
  | badJumpDestination
  | badInstruction
  | stackUnderflow
  | outOfStack
  | revertInstruction
deriving DecidableEq, Repr

/-! ### The State change log (spec sections 4.1 - 4.3)

State.cpp is not part of the given sources; every operation below is
modelled from the specification, which says that every mutation appends one
changelog entry recording enough information to undo it, that `Balance`
entries record the signed delta, and that rollback pops entries above the
savepoint and applies their inverses in reverse order. -/

/-- One atomic changelog entry (detail::Change in State.h, with the fields
each kind actually uses; `balance` holds the signed delta, `newCode` the
previous code, as the spec requires for exact undo). -/
inductive Change where
  | balance (addr : Address) (delta : Int)
  | nonce (addr : Address)
  | create (addr : Address)
  | newCode (addr : Address) (prevCode : Bytes)
  | touch (addr : Address)
deriving DecidableEq, Repr

/-- A cached account: nonce, balance and code (storage is not touched by
any Executive.cpp operation modelled here). -/
structure Acct where
  nonce : Nat
  balance : Nat
  code : Bytes
deriving DecidableEq, Repr

/-- The world state: account cache, touched set, changelog, and the chain's
account start nonce. -/
structure St where
  accounts : List (Address × Acct)
  touched : List Address
  changeLog : List Change
  startNonce : Nat
deriving DecidableEq, Repr

def St.account (st : St) (a : Address) : Option Acct := alookup a st.accounts

/-- Modelled from the spec: `balance(a)` is 0 when the account is absent. -/
def St.balance (st : St) (a : Address) : Nat :=
  match st.account a with
  | some ac => ac.balance
  | none => 0

/-- Modelled from the spec: `getNonce(a)` is `accountStartNonce` when the
account is absent. -/
def St.getNonce (st : St) (a : Address) : Nat :=
  match st.account a with
  | some ac => ac.nonce
  | none => st.startNonce

def St.addressInUse (st : St) (a : Address) : Bool := (st.account a).isSome

/-- Modelled from the spec: true iff the account exists and its code hash
differs from the hash of empty code, i.e. its code is non-empty. -/
def St.addressHasCode (st : St) (a : Address) : Bool :=
  match st.account a with
  | some ac => !ac.code.isEmpty
  | none => false

/-- Update an existing account in place (no changelog entry by itself). -/
def St.modifyAcct (st : St) (a : Address) (f : Acct → Acct) : St :=
  match st.account a with
  | some ac => { st with accounts := aset a (f ac) st.accounts }
  | none => st

def St.pushLog (st : St) (c : Change) : St :=
  { st with changeLog := c :: st.changeLog }

/-- Modelled from the spec: mark an account touched, logging a `Touch`
entry the first time only. -/
def St.touchAcct (st : St) (a : Address) : St :=
  if a ∈ st.touched then st
  else { st with touched := a :: st.touched, changeLog := Change.touch a :: st.changeLog }

/-- Modelled from the spec: create a fresh account (start nonce, zero
balance, no code) and log a `Create` entry. -/
def St.createAcct (st : St) (a : Address) : St :=
  { st with accounts := aset a ⟨st.startNonce, 0, []⟩ st.accounts,
            changeLog := Change.create a :: st.changeLog }

/-- Modelled from the spec: `addBalance(a, v)` creates the account if
absent, adds `v` (logging the positive delta when `v ≠ 0`) and marks the
account touched; `v = 0` is a pure touch. -/
def St.addBalance (st : St) (a : Address) (v : Nat) : St :=
  let st1 := if (st.account a).isSome then st else st.createAcct a
  let st2 :=
    if v ≠ 0 then
      (st1.modifyAcct a fun ac => { ac with balance := ac.balance + v }).pushLog
        (Change.balance a (v : Int))
    else st1
  st2.touchAcct a

/-- Modelled from the spec and the State.h doc comment: `subBalance(a, v)`
fails with `NotEnoughCash` whenever the account's balance is below `v`
(also when the account does not exist), otherwise subtracts and logs the
negative delta. -/
def St.subBalance (st : St) (a : Address) (v : Nat) : Except TxExc St :=
  if st.balance a < v then .error .notEnoughCash
  else if v = 0 then .ok st
  else .ok ((st.modifyAcct a fun ac => { ac with balance := ac.balance - v }).pushLog
    (Change.balance a (-(v : Int))))

/-- Translated from the source (State.h, inline definition):
`transferBalance(f, t, v) { subBalance(f, v); addBalance(t, v); }`. -/
def St.transferBalance (st : St) (f t : Address) (v : Nat) : Except TxExc St :=
  match st.subBalance f v with
  | .error e => .error e
  | .ok st1 => .ok (st1.addBalance t v)

/-- Modelled from the spec: `incNonce(a)` creates the account if absent and
increments its nonce, logging a `Nonce` entry. -/
def St.incNonce (st : St) (a : Address) : St :=
  let st1 := if (st.account a).isSome then st else st.createAcct a
  (st1.modifyAcct a fun ac => { ac with nonce := ac.nonce + 1 }).pushLog (Change.nonce a)

/-- Modelled from the spec: `setNewCode(a, bytes)` replaces the account's
code, logging the previous code for undo (no-op when the account is
absent; every caller in Executive.cpp targets an existing account). -/
def St.setNewCode (st : St) (a : Address) (c : Bytes) : St :=
  match st.account a with
  | some ac =>
    ({ st with accounts := aset a { ac with code := c } st.accounts }).pushLog
      (Change.newCode a ac.code)
  | none => st

/-- Modelled from the spec: `kill(a)` marks the account non-alive (purged
at commit; not a revertible changelog operation). -/
def St.kill (st : St) (a : Address) : St :=
  { st with accounts := aremove a st.accounts }

/-- Modelled from the spec: a savepoint is an index into the changelog. -/
def St.savepoint (st : St) : Nat := st.changeLog.length

/-- Modelled from the spec (section 4.1): the inverse of one changelog
entry. -/
def St.undo (st : St) (c : Change) : St :=
  match c with
  | .balance a d => st.modifyAcct a fun ac => { ac with balance := ((ac.balance : Int) - d).toNat }
  | .nonce a => st.modifyAcct a fun ac => { ac with nonce := ac.nonce - 1 }
  | .create a => { st with accounts := aremove a st.accounts }
  | .newCode a prev => st.modifyAcct a fun ac => { ac with code := prev }
  | .touch a => { st with touched := st.touched.erase a }

/-- Pop and undo the `fuel` newest changelog entries. -/
def St.rollbackFuel : Nat → St → St
  | 0, st => st
  | n + 1, st =>
    match st.changeLog with
    | [] => st
    | c :: rest => St.rollbackFuel n { st.undo c with changeLog := rest }

/-- Modelled from the spec: `rollback(sp)` pops entries above the savepoint
and applies the inverse of each, newest first. -/
def St.rollback (st : St) (sp : Nat) : St :=
  St.rollbackFuel (st.changeLog.length - sp) st

/-! ### Per-block environment, schedule, chain oracle, transaction -/

/-- EnvInfo: the immutable per-block environment (number, author, gas used
so far in the block, block gas limit). -/
structure EnvInfo where
  number : Nat
  author : Address
  gasUsed : Nat
  gasLimit : Nat
deriving DecidableEq, Repr

/-- The fields of EVMSchedule consulted by Executive.cpp, plus the
revert-support flag the spec mentions. -/
structure Schedule where
  maxCodeSize : Nat
  createDataGas : Nat
  exceptionalFailedCodeDeposit : Bool
  suicideRefundGas : Nat
  haveRevert : Bool
deriving DecidableEq, Repr

/-- The SealEngine chain oracle as used by Executive.cpp: precompile
predicate, precompile cost and execution, and the EIP-158 fork block. -/
structure SealEngine where
  isPrecompiled : Address → Nat → Bool
  costOfPrecompiled : Address → Bytes → Nat → Nat
  executePrecompiled : Address → Bytes → Nat → Bool × Bytes
  eip158ForkBlock : Nat

/-- A signed transaction; `sender` is `none` when signature recovery fails
(Transaction::sender() throws, which Executive::initialize maps to
InvalidSignature), and `to = none` marks a contract creation. -/
structure Transaction where
  nonce : Nat
  gasPrice : Nat
  gas : Nat
  toAddr : Option Address
  value : Nat
  data : Bytes
  sender : Option Address
deriving DecidableEq, Repr

/-- A log entry produced by the VM (address plus payload; topics are not
inspected by any claim). -/
structure LogEntry where
  address : Address
  data : Bytes
deriving DecidableEq, Repr

/-- The per-frame SubState accumulated by ExtVM. -/
structure SubState where
  suicides : List Address
  logs : List LogEntry
  refunds : Nat
  touched : List Address
deriving DecidableEq, Repr

def SubState.empty : SubState := ⟨[], [], 0, []⟩

/-- The ExtVM host frame fields the executor reads back. -/
structure ExtFrame where
  myAddress : Address
  caller : Address
  origin : Address
  sub : SubState
  sched : Schedule
  depth : Nat
deriving DecidableEq, Repr

/-- CodeDeposit outcome recorded into ExecutionResult. -/
inductive CodeDeposit where
  | noDeposit
  | failed
  | success
deriving DecidableEq, Repr

/-- The ExecutionResult fields written by Executive.cpp. -/
structure ExecRes where
  gasForDeposit : Nat
  depositSize : Nat
  codeDeposit : CodeDeposit
  output : Bytes
  gasUsed : Nat
  excepted : Option TxExc
  newAddress : Option Address
  gasRefunded : Nat
deriving DecidableEq, Repr

/-- The mutable fields of an Executive, together with the state it drives.
`isTop` models `if (m_t)` (the transaction is set on the outermost frame
only); `savepoint` is `m_savepoint`; `res = none` models a null
`m_res` pointer; `deleteAddresses` is the seal engine's cleanup set
(the fork-specific member Executive::call inserts into). -/
structure Exec where
  st : St
  envInfo : EnvInfo
  isTop : Bool
  gas : Nat
  gasCost : Nat
  excepted : Option TxExc
  savepoint : Nat
  newAddress : Option Address
  ext : Option ExtFrame
  isCreation : Bool
  output : Bytes
  refunded : Nat
  res : Option ExecRes
  depth : Nat
  deleteAddresses : List Address
  logs : List LogEntry
deriving DecidableEq, Repr

/-- Apply an update to `m_res` when it is non-null. -/
def setRes (ex : Exec) (f : ExecRes → ExecRes) : Exec :=
  match ex.res with
  | some r => { ex with res := some (f r) }
  | none => ex

/-! ### Executive::initialize (Executive.cpp lines 194-245)

The source performs four guarded checks in order, records the matching
`TransactionException` in `m_excepted` and throws; it only reads the
state.  The returned `Option TxExc` is the thrown exception (`none` on
success).  `baseGasRequired` stands for the external call
`m_t.baseGasRequired(m_sealEngine.evmSchedule(m_envInfo))`. -/
def initTx (tx : Transaction) (baseGasRequired : Nat) (ex0 : Exec) : Exec × Option TxExc :=
  let ex := { ex0 with isTop := true }
  if ex.envInfo.gasUsed + tx.gas > ex.envInfo.gasLimit then
    ({ ex with excepted := some .blockGasLimitReached }, some .blockGasLimitReached)
  else if baseGasRequired > tx.gas then
    ({ ex with excepted := some .outOfGasBase }, some .outOfGasBase)
  else
    match tx.sender with
    | none => ({ ex with excepted := some .invalidSignature }, some .invalidSignature)
    | some s =>
      if tx.nonce ≠ ex.st.getNonce s then
        ({ ex with excepted := some .invalidNonce }, some .invalidNonce)
      else if ex.st.balance s < tx.value + tx.gas * tx.gasPrice then
        ({ ex with excepted := some .notEnoughCash }, some .notEnoughCash)
      else ({ ex with gasCost := tx.gas * tx.gasPrice }, none)

/-! ### Executive::call / Executive::create (Executive.cpp lines 261-364) -/

/-- CallParameters as constructed by Executive.cpp. -/
structure CallParameters where
  senderAddress : Address
  codeAddress : Address
  receiveAddress : Address
  valueTransfer : Nat
  apparentValue : Nat
  gas : Nat
  data : Bytes
deriving DecidableEq, Repr

/-- The tail of Executive::call shared by the precompile-success and
plain-code paths: note the receive address for the cleanup set when it did
not exist, transfer the value, and return `!m_ext`. -/
def callTail (p : CallParameters) (ex : Exec) : Except TxExc (Bool × Exec) :=
  let ex1 :=
    if ex.st.addressInUse p.receiveAddress then ex
    else { ex with deleteAddresses := p.receiveAddress :: ex.deleteAddresses }
  match ex1.st.transferBalance p.senderAddress p.receiveAddress p.valueTransfer with
  | .error e => .error e
  | .ok st2 => .ok (ex1.ext.isNone, { ex1 with st := st2 })

/-- Executive::call (CallParameters overload, Executive.cpp lines 267-331).
A thrown NotEnoughCash from the balance transfer propagates as `.error`. -/
def callE (se : SealEngine) (sched : Schedule) (p : CallParameters) (gasPrice : Nat)
    (origin : Address) (ex0 : Exec) : Except TxExc (Bool × Exec) :=
  let ex1 := if ex0.isTop then { ex0 with st := ex0.st.incNonce p.senderAddress } else ex0
  let ex2 := { ex1 with savepoint := ex1.st.savepoint }
  if se.isPrecompiled p.codeAddress ex2.envInfo.number then
    let g := se.costOfPrecompiled p.codeAddress p.data ex2.envInfo.number
    if p.gas < g then
      let ex3 := { ex2 with excepted := some .outOfGasBase }
      let ex4 :=
        if se.eip158ForkBlock ≤ ex3.envInfo.number then
          { ex3 with st := ex3.st.addBalance p.codeAddress 0 }
        else ex3
      .ok (true, ex4)
    else
      let ex3 := { ex2 with gas := p.gas - g }
      let pr := se.executePrecompiled p.codeAddress p.data ex3.envInfo.number
      let ex4 :=
        if pr.1 then { ex3 with output := pr.2 }
        else { ex3 with gas := 0, excepted := some .outOfGas, output := pr.2 }
      callTail p ex4
  else
    let ex3 := { ex2 with gas := p.gas }
    let ex4 :=
      if ex3.st.addressHasCode p.codeAddress then
        { ex3 with ext := some { myAddress := p.receiveAddress, caller := p.senderAddress,
                                 origin := origin, sub := SubState.empty, sched := sched,
                                 depth := ex3.depth } }
      else ex3
    callTail p ex4

/-- Executive::create (Executive.cpp lines 333-364): fetch the sender nonce
before incrementing it, record the savepoint, derive the new address as
`right160(sha3(rlpList(sender, nonce)))`, transfer the endowment,
post-EIP-158 increment the new account's nonce, then either install the
init frame or overwrite a colliding account's code with empty code. -/
def createE (crypto : Crypto) (se : SealEngine) (sched : Schedule) (sender : Address)
    (endowment gasPrice gas : Nat) (initCode : Bytes) (origin : Address) (ex0 : Exec) :
    Except TxExc (Bool × Exec) :=
  let nonce := ex0.st.getNonce sender
  let st1 := ex0.st.incNonce sender
  let newA := crypto.right160 (crypto.sha3 (rlpList2 sender nonce))
  let ex1 := { ex0 with
    st := st1
    savepoint := st1.savepoint
    isCreation := true
    newAddress := some newA
    gas := gas }
  match ex1.st.transferBalance sender newA endowment with
  | .error e => .error e
  | .ok st2 =>
    let st3 := if se.eip158ForkBlock ≤ ex1.envInfo.number then st2.incNonce newA else st2
    if initCode.isEmpty then
      let st4 := if st3.addressHasCode newA then st3.setNewCode newA [] else st3
      .ok (true, { ex1 with st := st4 })
    else
      .ok (false, { ex1 with
            st := st3
            ext := some { myAddress := newA, caller := sender, origin := origin,
                          sub := SubState.empty, sched := sched, depth := ex1.depth } })

/-- Executive::execute (Executive.cpp lines 247-259): debit the up-front
gas cost from the sender (non-revertible: it precedes the savepoint), then
dispatch on `m_t.isCreation()`. -/
def executeTx (crypto : Crypto) (se : SealEngine) (sched : Schedule) (tx : Transaction)
    (baseGasRequired : Nat) (ex : Exec) : Except TxExc (Bool × Exec) :=
  match tx.sender with
  | none => .error .invalidSignature
  | some s =>
    match ex.st.subBalance s ex.gasCost with
    | .error e => .error e
    | .ok st1 =>
      let ex1 := { ex with st := st1 }
      match tx.toAddr with
      | none =>
        createE crypto se sched s tx.value tx.gasPrice (tx.gas - baseGasRequired) tx.data s ex1
      | some r =>
        callE se sched { senderAddress := s, codeAddress := r, receiveAddress := r,
                         valueTransfer := tx.value, apparentValue := tx.value,
                         gas := tx.gas - baseGasRequired, data := tx.data }
          tx.gasPrice s ex1

/-- Executive::revert (Executive.cpp lines 503-511): clear the frame's
SubState, null the result address, roll the state back to `m_savepoint`. -/
def revertE (ex : Exec) : Exec :=
  let ex1 :=
    match ex.ext with
    | some f => { ex with ext := some { f with sub := SubState.empty } }
    | none => ex
  { ex1 with newAddress := none, st := ex1.st.rollback ex1.savepoint }

/-! ### Executive::go (Executive.cpp lines 386-464) -/

/-- The typed VM exceptions `toTransactionException` distinguishes. -/
inductive VMExc where
  | outOfGas
  | badInstruction
  | badJumpDestination
  | outOfStack
  | stackUnderflow
  | revertInstruction
deriving DecidableEq, Repr

/-- `toTransactionException` on the VM exception taxonomy. -/
def toTransactionExc : VMExc → TxExc
  | .outOfGas => .outOfGas
  | .badInstruction => .badInstruction
  | .badJumpDestination => .badJumpDestination
  | .outOfStack => .outOfStack
  | .stackUnderflow => .stackUnderflow
  | .revertInstruction => .revertInstruction

/-- Result of the external `vm->exec(m_gas, *m_ext, _onOp)` call: a normal
return with output and the in-place-updated remaining gas, a typed VM
exception (with the remaining gas m_gas held when it was thrown), or a
non-VM exception (`catch (Exception)` / `catch (std::exception)`), on
which the source calls `exit(1)` and never returns. -/
inductive VMOutcome where
  | success (out : Bytes) (gasLeft : Nat)
  | vmError (e : VMExc) (gasLeft : Nat)
  | fatal
deriving DecidableEq, Repr

/-- Executive::go.  Returns `none` exactly on the `exit(1)` paths (the
function does not return there); otherwise returns the C++ return value
paired with the updated executive. -/
def go (outcome : VMOutcome) (ex : Exec) : Option (Bool × Exec) :=
  match ex.ext with
  | none => some (true, ex)
  | some f =>
    match outcome with
    | .fatal => none
    | .vmError e gasLeft =>
      some (true, revertE { ex with gas := 0, excepted := some (toTransactionExc e) })
    | .success out gasLeft =>
      let ex1 := { ex with gas := gasLeft }
      if ex1.isCreation then
        let ex2 := setRes ex1 fun r => { r with gasForDeposit := ex1.gas, depositSize := out.length }
        if f.sched.maxCodeSize < out.length then
          some (true, revertE { ex2 with gas := 0, excepted := some (toTransactionExc .outOfGas) })
        else if out.length * f.sched.createDataGas ≤ ex2.gas then
          let ex3 := setRes ex2 fun r => { r with codeDeposit := .success }
          let ex4 := { ex3 with gas := ex3.gas - out.length * f.sched.createDataGas }
          let ex5 := setRes ex4 fun r => { r with output := out }
          some (true, { ex5 with st := ex5.st.setNewCode f.myAddress out })
        else if f.sched.exceptionalFailedCodeDeposit then
          some (true, revertE { ex2 with gas := 0, excepted := some (toTransactionExc .outOfGas) })
        else
          let ex3 := setRes ex2 fun r => { r with codeDeposit := .failed, output := [] }
          some (true, { ex3 with st := ex3.st.setNewCode f.myAddress [] })
      else
        let ex2 := { ex1 with output := out }
        let ex3 := setRes ex2 fun r => { r with output := out }
        some (true, ex3)

/-! ### Executive::finalize (Executive.cpp lines 466-501) -/

/-- Executive::finalize: accumulate suicide refunds into `sub.refunds`,
cap the refund at half the gas used, credit the sender with the unspent
gas plus the refund, pay the remainder to the block author, kill the
suicide set, and publish the logs and the execution result. -/
def finalizeE (tx : Transaction) (ex0 : Exec) : Exec :=
  let ex1 :=
    match ex0.ext with
    | some f => { ex0 with ext := some { f with sub := { f.sub with
        refunds := f.sub.refunds + f.sched.suicideRefundGas * f.sub.suicides.length } } }
    | none => ex0
  let refunded :=
    match ex1.ext with
    | some f => min ((tx.gas - ex1.gas) / 2) f.sub.refunds
    | none => 0
  let ex2 := { ex1 with refunded := refunded, gas := ex1.gas + refunded }
  let ex3 :=
    if ex2.isTop then
      let st1 := ex2.st.addBalance (tx.sender.getD 0) (ex2.gas * tx.gasPrice)
      let st2 := st1.addBalance ex2.envInfo.author ((tx.gas - ex2.gas) * tx.gasPrice)
      { ex2 with st := st2 }
    else ex2
  let ex4 :=
    match ex3.ext with
    | some f => { ex3 with st := f.sub.suicides.foldl St.kill ex3.st }
    | none => ex3
  let ex5 :=
    match ex4.ext with
    | some f => { ex4 with logs := f.sub.logs }
    | none => ex4
  setRes ex5 fun r => { r with
    gasUsed := tx.gas - ex5.gas
    excepted := ex5.excepted
    newAddress := ex5.newAddress
    gasRefunded := match ex5.ext with | some f => f.sub.refunds | none => 0 }

/-! ### Total projections of dispatch results (used to state the claims
without existential binders) -/

/-- Whether a dispatch result is a normal return. -/
def retOk : Except TxExc (Bool × Exec) → Bool
  | .ok _ => true
  | .error _ => false

/-- The boolean returned by a successful dispatch (`false` on error). -/
def retBool : Except TxExc (Bool × Exec) → Bool
  | .ok p => p.1
  | .error _ => false

/-- The executive produced by a successful dispatch (the supplied default
on error). -/
def retExec (dflt : Exec) : Except TxExc (Bool × Exec) → Exec
  | .ok p => p.2
  | .error _ => dflt

/-- The executive produced by a returning `go` (the supplied default when
`go` does not return). -/
def goExecD (dflt : Exec) : Option (Bool × Exec) → Exec
  | some p => p.2
  | none => dflt

/-! ### Rollback undoes logged operations exactly

`RevertsTo st' st` says that `st'` was reached from `st` by logged
operations, in the precise sense that popping and undoing the changelog
entries above `st`'s watermark recovers `st` exactly. -/

/-- `st'` rolls back to `st`: undoing the entries above `st`'s changelog
length recovers `st` bit for bit. -/
def RevertsTo (st' st : St) : Prop :=
  st.changeLog.length ≤ st'.changeLog.length ∧
  St.rollbackFuel (st'.changeLog.length - st.changeLog.length) st' = st

/-! ### The commit template function (State.h lines 344-391)

This one is translated directly from the source: `dev::eth::commit`
iterates the account cache, removes dead dirty accounts from the state
trie, and serializes live dirty accounts, rebuilding each storage trie
from its overlay.  Tries are modelled as association lists; the storage
trie root hash is an abstract function of the trie contents (`trieRoot`),
since the trie hashing lives in libdevcore. -/

/-- A cached account as seen by `commit`: the Account fields the template
reads.  `baseStorage` is the content of the storage trie at `baseRoot`. -/
structure CacheAccount where
  nonce : Nat
  balance : Nat
  baseStorage : List (Nat × Bytes)
  storageOverlay : List (Nat × Nat)
  codeHash : Nat
  code : Bytes
  isDirty : Bool
  isAlive : Bool
  hasNewCode : Bool
deriving DecidableEq, Repr

/-- Apply a storage overlay to a storage trie: non-zero values are
inserted RLP-encoded, zero values delete the key (State.h lines 365-372). -/
def overlayApply (base : List (Nat × Bytes)) (overlay : List (Nat × Nat)) :
    List (Nat × Bytes) :=
  overlay.foldl
    (fun t kv => if kv.2 ≠ 0 then aset kv.1 (rlpNat kv.2) t else aremove kv.1 t) base

/-- 32-byte big-endian encoding of a hash value. -/
def be32 (n : Nat) : Bytes := bytesFixed 32 n

/-- The 4-tuple `rlp([nonce, balance, storageRoot, codeHash])` streamed for
a live dirty account (State.h lines 355-384): the storage root is the base
root when the overlay is empty, else the root of the rebuilt trie. -/
def accountStreamRLP (trieRoot : List (Nat × Bytes) → Nat) (ac : CacheAccount) : Bytes :=
  let root :=
    if ac.storageOverlay.isEmpty then trieRoot ac.baseStorage
    else trieRoot (overlayApply ac.baseStorage ac.storageOverlay)
  rlpListPayload (rlpNat ac.nonce ++ rlpNat ac.balance ++ rlpStr (be32 root) ++
    rlpStr (be32 ac.codeHash))

/-- The state produced by `commit`: the account trie, the backing database
(code blobs keyed by code hash), the code-size cache, and the set of
processed (dirty) addresses. -/
structure CommitOut where
  stateTrie : List (Nat × Bytes)
  db : List (Nat × Bytes)
  codeSizes : List (Nat × Nat)
  ret : List Address
deriving DecidableEq, Repr

/-- One iteration of the commit loop (State.h lines 348-389). -/
def commitStep (trieRoot : List (Nat × Bytes) → Nat) (acc : CommitOut)
    (e : Nat × CacheAccount) : CommitOut :=
  if e.2.isDirty then
    if ¬e.2.isAlive then
      { acc with stateTrie := aremove e.1 acc.stateTrie, ret := e.1 :: acc.ret }
    else
      let acc1 :=
        if e.2.hasNewCode then
          { acc with codeSizes := aset e.2.codeHash e.2.code.length acc.codeSizes,
                     db := aset e.2.codeHash e.2.code acc.db }
        else acc
      { acc1 with stateTrie := aset e.1 (accountStreamRLP trieRoot e.2) acc1.stateTrie,
                  ret := e.1 :: acc1.ret }
  else acc

/-- `dev::eth::commit(cache, state)`: fold the loop body over the cache. -/
def commitCache (trieRoot : List (Nat × Bytes) → Nat) (cache : List (Nat × CacheAccount))
    (st0 db0 : List (Nat × Bytes)) (cs0 : List (Nat × Nat)) : CommitOut :=
  cache.foldl (commitStep trieRoot) ⟨st0, db0, cs0, []⟩

/-! ### Concrete sample data used by the witnesses -/

/-- A sample gas schedule (Byzantium-like numbers, revert supported). -/
def schedW : Schedule := ⟨24576, 200, true, 24000, true⟩

/-- A sample chain oracle: address 3 is the only precompile, with a cost of
18 gas plus one per input byte; the EIP-158 fork activates at block 100. -/
def seW : SealEngine where
  isPrecompiled := fun a _ => a == 3
  costOfPrecompiled := fun _ d _ => 18 + d.length
  executePrecompiled := fun _ d _ => (true, d)
  eip158ForkBlock := 100

/-- A sample hash oracle (any concrete function works: the theorems hold
for every `Crypto`). -/
def cryptoW : Crypto where
  sha3 := fun bs => bs.foldl (fun h b => h * 257 + b + 1) 7
  right160 := fun n => n % (2 ^ 160)

/-- A sample block environment (block 150, author 9, limit 10,000,000). -/
def envW : EnvInfo := ⟨150, 9, 0, 10000000⟩

/-- A sample world state: account 1 holds 1,000,000 wei at nonce 5;
account 2 holds 50 wei and has code. -/
def stW : St where
  accounts := [(1, ⟨5, 1000000, []⟩), (2, ⟨0, 50, [7, 8]⟩)]
  touched := []
  changeLog := []
  startNonce := 0

/-- A fresh executive over `stW` and `envW`. -/
def exW : Exec where
  st := stW
  envInfo := envW
  isTop := true
  gas := 0
  gasCost := 0
  excepted := none
  savepoint := 0
  newAddress := none
  ext := none
  isCreation := false
  output := []
  refunded := 0
  res := some ⟨0, 0, .noDeposit, [], 0, none, none, 0⟩
  depth := 0
  deleteAddresses := []
  logs := []

/-! ### Claim C9 -/

/-- Whether a state-valued operation succeeded. -/
def stOk : Except TxExc St → Bool
  | .ok _ => true
  | .error _ => false

/-- The state produced by a successful state-valued operation (the default
on error). -/
def stGet (dflt : St) : Except TxExc St → St
  | .ok s => s
  | .error _ => dflt

/-! ### Claim C2 -/

/-- A sample installed ExtVM frame whose schedule supports revert. -/
def extC2 : ExtFrame :=
  { myAddress := 2, caller := 1, origin := 1, sub := SubState.empty,
    sched := schedW, depth := 0 }

/-- `exW` with the frame `extC2` installed and 7 gas remaining. -/
def exC2 : Exec := { exW with ext := some extC2, gas := 7 }

/-! ### Claim C5 -/

/-- The code stored for an account (empty when absent). -/
def St.codeOf (st : St) (a : Address) : Bytes :=
  match st.account a with
  | some ac => ac.code
  | none => []

/-- `exC2` again, but marked as a creation frame (used as the C5 witness
executive; the target account 2 exists in `stW`). -/
def exC5 : Exec := { exW with ext := some extC2, isCreation := true }

/-- An ExtVM frame that has self-destructed account 2 (C3 witness data). -/
def extC3 : ExtFrame :=
  { myAddress := 2, caller := 1, origin := 1,
    sub := { suicides := [2], logs := [], refunds := 0, touched := [] },
    sched := schedW, depth := 0 }

/-- The C3 witness executive: frame `extC3` installed, 60,000 gas left. -/
def exC3 : Exec := { exW with ext := some extC3, gas := 60000 }

/-- The C7 witness executive: `exW` after initialize cached a 21,000 wei
gas cost. -/
def exC7 : Exec := { exW with gasCost := 21000 }

/-- A sample commit cache for the C8 witness: account 7 is dirty, alive,
with a storage overlay writing slot 1 and clearing slot 2, and fresh code;
account 8 is dirty and dead; account 9 is clean. -/
def cacheW : List (Nat × CacheAccount) :=
  [(7, ⟨1, 500, [(2, [42])], [(1, 3), (2, 0)], 77, [1, 2], true, true, true⟩),
   (8, ⟨0, 0, [], [], 0, [], true, false, false⟩),
   (9, ⟨2, 9, [], [], 0, [], false, true, false⟩)]

/-- A sample storage-root oracle for the C8 witness. -/
def trieRootW (t : List (Nat × Bytes)) : Nat := t.length

/-! ## Theorems -/

@[simp] theorem alookup_aset_same {β : Type} (a : Nat) (v : β) (l : List (Nat × β)) :
    alookup a (aset a v l) = some v := by
  induction l with
  | nil => simp [aset, alookup]
  | cons hd t ih =>
    by_cases h : a = hd.1
    · simp [aset, alookup, h]
    · simp [aset, alookup, h, ih]

@[simp] theorem alookup_aset_ne {β : Type} {a b : Nat} (h : b ≠ a) (v : β)
    (l : List (Nat × β)) : alookup b (aset a v l) = alookup b l := by
  induction l with
  | nil => simp [aset, alookup, h]
  | cons hd t ih =>
    by_cases h2 : a = hd.1
    · subst h2
      simp [aset, alookup, h]
    · by_cases h3 : b = hd.1
      · simp [aset, alookup, h2, h3]
      · simp [aset, alookup, h2, h3, ih]

@[simp] theorem alookup_aremove_same {β : Type} (a : Nat) (l : List (Nat × β)) :
    alookup a (aremove a l) = none := by
  induction l with
  | nil => simp [aremove, alookup]
  | cons hd t ih =>
    by_cases h : a = hd.1
    · subst h
      simp [aremove, ih]
    · simp [aremove, alookup, h, ih]

@[simp] theorem alookup_aremove_ne {β : Type} {a b : Nat} (h : b ≠ a)
    (l : List (Nat × β)) : alookup b (aremove a l) = alookup b l := by
  induction l with
  | nil => simp [aremove]
  | cons hd t ih =>
    by_cases h2 : a = hd.1
    · subst h2
      simp [aremove, alookup, h, ih]
    · by_cases h3 : b = hd.1
      · simp [aremove, alookup, h2, h3]
      · simp [aremove, alookup, h2, h3, ih]

theorem aset_aset {β : Type} (a : Nat) (v w : β) (l : List (Nat × β)) :
    aset a v (aset a w l) = aset a v l := by
  induction l with
  | nil => simp [aset]
  | cons hd t ih =>
    by_cases h : a = hd.1
    · simp [aset, h]
    · simp [aset, h, ih]

theorem aset_self {β : Type} {a : Nat} {v : β} {l : List (Nat × β)}
    (h : alookup a l = some v) : aset a v l = l := by
  induction l with
  | nil => simp [alookup] at h
  | cons hd t ih =>
    by_cases h2 : a = hd.1
    · simp [alookup, h2] at h
      simp [aset, h2, ← h]
    · simp [alookup, h2] at h
      simp [aset, h2, ih h]

theorem aremove_aset_same {β : Type} (a : Nat) (v : β) (l : List (Nat × β)) :
    aremove a (aset a v l) = aremove a l := by
  induction l with
  | nil => simp [aset, aremove]
  | cons hd t ih =>
    by_cases h : a = hd.1
    · simp [aset, aremove, h]
    · simp [aset, aremove, h, ih]

theorem aremove_of_alookup_none {β : Type} {a : Nat} {l : List (Nat × β)}
    (h : alookup a l = none) : aremove a l = l := by
  induction l with
  | nil => simp [aremove]
  | cons hd t ih =>
    by_cases h2 : a = hd.1
    · simp [alookup, h2] at h
    · simp [alookup, h2] at h
      simp [aremove, h2, ih h]

theorem rollbackFuel_nil (k : Nat) (st : St) (h : st.changeLog = []) :
    St.rollbackFuel k st = st := by
  cases k with
  | zero => rfl
  | succ n =>
    unfold St.rollbackFuel
    split
    · rfl
    · simp_all

theorem rollbackFuel_cons {st : St} {c : Change} {rest : List Change}
    (h : st.changeLog = c :: rest) (n : Nat) :
    St.rollbackFuel (n + 1) st = St.rollbackFuel n { st.undo c with changeLog := rest } := by
  conv_lhs => rw [St.rollbackFuel]
  split
  · simp_all
  · rename_i c2 rest2 h2
    rw [h] at h2
    obtain ⟨rfl, rfl⟩ : c = c2 ∧ rest = rest2 := by
      constructor <;> injection h2 <;> simp_all
    rfl

theorem rollbackFuel_add (m n : Nat) (st : St) :
    St.rollbackFuel (m + n) st = St.rollbackFuel n (St.rollbackFuel m st) := by
  induction m generalizing st with
  | zero => simp [St.rollbackFuel]
  | succ k ih =>
    cases h : st.changeLog with
    | nil =>
      rw [rollbackFuel_nil (k + 1 + n) st h, rollbackFuel_nil (k + 1) st h,
        rollbackFuel_nil n st h]
    | cons c rest =>
      have hsum : k + 1 + n = (k + n) + 1 := by omega
      rw [hsum, rollbackFuel_cons h (k + n), rollbackFuel_cons h k, ih]

theorem revertsTo_refl (st : St) : RevertsTo st st := by
  refine ⟨Nat.le_refl _, ?_⟩
  simp [St.rollbackFuel]

theorem revertsTo_trans {st2 st1 st0 : St} (h21 : RevertsTo st2 st1)
    (h10 : RevertsTo st1 st0) : RevertsTo st2 st0 := by
  obtain ⟨l21, r21⟩ := h21
  obtain ⟨l10, r10⟩ := h10
  refine ⟨Nat.le_trans l10 l21, ?_⟩
  have hsplit : st2.changeLog.length - st0.changeLog.length =
      (st2.changeLog.length - st1.changeLog.length) +
      (st1.changeLog.length - st0.changeLog.length) := by omega
  rw [hsplit, rollbackFuel_add, r21, r10]

/-- A state carrying exactly one extra entry, whose undo restores the base
state, reverts to the base state. -/
theorem revertsTo_one {st' st : St} {c : Change}
    (hlog : st'.changeLog = c :: st.changeLog)
    (hundo : { st'.undo c with changeLog := st.changeLog } = st) :
    RevertsTo st' st := by
  refine ⟨by rw [hlog]; simp, ?_⟩
  have hfuel : st'.changeLog.length - st.changeLog.length = 1 := by
    rw [hlog]
    simp
  rw [hfuel, rollbackFuel_cons hlog 0]
  simpa [St.rollbackFuel] using hundo

theorem revertsTo_touchAcct (st : St) (a : Address) : RevertsTo (st.touchAcct a) st := by
  obtain ⟨acc, tch, log, sn⟩ := st
  unfold St.touchAcct
  by_cases h : a ∈ tch
  · simpa [h] using revertsTo_refl ⟨acc, tch, log, sn⟩
  · simp only [h, if_false]
    exact revertsTo_one rfl (by simp [St.undo])

theorem revertsTo_createAcct (st : St) (a : Address)
    (h : st.account a = none) : RevertsTo (st.createAcct a) st := by
  obtain ⟨acc, tch, log, sn⟩ := st
  unfold St.createAcct
  refine revertsTo_one rfl ?_
  simp [St.undo, aremove_aset_same,
    aremove_of_alookup_none (show alookup a acc = none by simpa [St.account] using h)]

/-- Undoing a `balance` entry pushed over an in-place balance increase
restores the original state. -/
theorem revertsTo_balAddPush (st : St) (a : Address) (ac : Acct) (v : Nat)
    (hac : st.account a = some ac) :
    RevertsTo ((st.modifyAcct a fun x => { x with balance := x.balance + v }).pushLog
      (Change.balance a (v : Int))) st := by
  obtain ⟨acc, tch, log, sn⟩ := st
  have hac' : alookup a acc = some ac := by simpa [St.account] using hac
  refine @revertsTo_one _ _ (Change.balance a (v : Int))
    (by simp [St.modifyAcct, St.account, hac', St.pushLog]) ?_
  simp only [St.pushLog, St.modifyAcct, St.account, hac', St.undo]
  simp only [alookup_aset_same]
  have hb : ((ac.balance + v : Nat) : Int) - (v : Int) = (ac.balance : Int) := by
    push_cast
    ring
  obtain ⟨n, b, cd⟩ := ac
  simp only at hb
  simp [hb, aset_aset, aset_self hac']

/-- Undoing a `balance` entry pushed over an in-place balance decrease
restores the original state. -/
theorem revertsTo_balSubPush (st : St) (a : Address) (ac : Acct) (v : Nat)
    (hac : st.account a = some ac) (hle : v ≤ ac.balance) :
    RevertsTo ((st.modifyAcct a fun x => { x with balance := x.balance - v }).pushLog
      (Change.balance a (-(v : Int)))) st := by
  obtain ⟨acc, tch, log, sn⟩ := st
  have hac' : alookup a acc = some ac := by simpa [St.account] using hac
  refine @revertsTo_one _ _ (Change.balance a (-(v : Int)))
    (by simp [St.modifyAcct, St.account, hac', St.pushLog]) ?_
  simp only [St.pushLog, St.modifyAcct, St.account, hac', St.undo]
  simp only [alookup_aset_same]
  have hb : (((ac.balance - v : Nat) : Int) + (v : Int)).toNat = ac.balance := by
    omega
  obtain ⟨n, b, cd⟩ := ac
  simp only at hb hle
  simp [hb, aset_aset, aset_self hac']

/-- Undoing a `nonce` entry pushed over an in-place nonce increment
restores the original state. -/
theorem revertsTo_noncePush (st : St) (a : Address) (ac : Acct)
    (hac : st.account a = some ac) :
    RevertsTo ((st.modifyAcct a fun x => { x with nonce := x.nonce + 1 }).pushLog
      (Change.nonce a)) st := by
  obtain ⟨acc, tch, log, sn⟩ := st
  have hac' : alookup a acc = some ac := by simpa [St.account] using hac
  refine @revertsTo_one _ _ (Change.nonce a)
    (by simp [St.modifyAcct, St.account, hac', St.pushLog]) ?_
  simp only [St.pushLog, St.modifyAcct, St.account, hac', St.undo]
  simp only [alookup_aset_same]
  obtain ⟨n, b, cd⟩ := ac
  simp [aset_aset, aset_self hac']

theorem accountIsNone_of_not_isSome {st : St} {a : Address}
    (h : ¬(st.account a).isSome = true) : st.account a = none := by
  cases hx : st.account a
  · rfl
  · simp [hx] at h

theorem createAcct_account_self (st : St) (a : Address) :
    (st.createAcct a).account a = some ⟨st.startNonce, 0, []⟩ := by
  simp [St.createAcct, St.account]

theorem revertsTo_addBalance (st : St) (a : Address) (v : Nat) :
    RevertsTo (st.addBalance a v) st := by
  unfold St.addBalance
  simp only []
  refine revertsTo_trans (revertsTo_touchAcct _ a) ?_
  by_cases hv : v = 0
  · simp only [hv, ne_eq, not_true_eq_false, if_false]
    by_cases h : (st.account a).isSome
    · simp only [h, if_true]
      exact revertsTo_refl st
    · simp only [h, if_false]
      exact revertsTo_createAcct st a (accountIsNone_of_not_isSome h)
  · have hv' : (v ≠ 0) = True := by simp [hv]
    simp only [ne_eq, hv, not_false_eq_true, if_true]
    by_cases h : (st.account a).isSome
    · obtain ⟨ac, hac⟩ := Option.isSome_iff_exists.mp h
      simp only [h, if_true]
      exact revertsTo_balAddPush st a ac v hac
    · simp only [h, if_false]
      refine revertsTo_trans ?_ (revertsTo_createAcct st a (accountIsNone_of_not_isSome h))
      exact revertsTo_balAddPush _ a ⟨st.startNonce, 0, []⟩ v (createAcct_account_self st a)

theorem revertsTo_incNonce (st : St) (a : Address) : RevertsTo (st.incNonce a) st := by
  unfold St.incNonce
  simp only []
  by_cases h : (st.account a).isSome
  · obtain ⟨ac, hac⟩ := Option.isSome_iff_exists.mp h
    simp only [h, if_true]
    exact revertsTo_noncePush st a ac hac
  · simp only [h, if_false]
    refine revertsTo_trans ?_ (revertsTo_createAcct st a (accountIsNone_of_not_isSome h))
    exact revertsTo_noncePush _ a ⟨st.startNonce, 0, []⟩ (createAcct_account_self st a)

theorem revertsTo_subBalance {st st' : St} {a : Address} {v : Nat}
    (h : st.subBalance a v = .ok st') : RevertsTo st' st := by
  unfold St.subBalance at h
  by_cases hlt : st.balance a < v
  · simp [hlt] at h
  · by_cases hv : v = 0
    · simp only [hlt, if_false, hv, if_true] at h
      injection h with h
      exact h ▸ revertsTo_refl st
    · simp only [hlt, if_false, hv, if_true] at h
      injection h with h
      have hsome : ∃ ac, st.account a = some ac ∧ v ≤ ac.balance := by
        cases hx : st.account a with
        | none =>
          exfalso
          apply hlt
          simpa [St.balance, hx] using Nat.pos_of_ne_zero hv
        | some ac =>
          exact ⟨ac, rfl, by simpa [St.balance, hx] using Nat.le_of_not_lt hlt⟩
      obtain ⟨ac, hac, hle⟩ := hsome
      exact h ▸ revertsTo_balSubPush st a ac v hac hle

theorem revertsTo_transferBalance {st st' : St} {f t : Address} {v : Nat}
    (h : st.transferBalance f t v = .ok st') : RevertsTo st' st := by
  unfold St.transferBalance at h
  cases hs : st.subBalance f v with
  | error e => simp [hs] at h
  | ok st1 =>
    simp only [hs] at h
    injection h with h
    exact h ▸ revertsTo_trans (revertsTo_addBalance st1 t v) (revertsTo_subBalance hs)

theorem revertsTo_setNewCode (st : St) (a : Address) (c : Bytes) :
    RevertsTo (st.setNewCode a c) st := by
  unfold St.setNewCode
  cases hac : st.account a with
  | none => exact revertsTo_refl st
  | some ac =>
    obtain ⟨acc, tch, log, sn⟩ := st
    have hac' : alookup a acc = some ac := by simpa [St.account] using hac
    refine @revertsTo_one _ _ (Change.newCode a ac.code) (by simp [St.pushLog]) ?_
    simp only [St.pushLog, St.undo, St.modifyAcct, St.account, alookup_aset_same]
    obtain ⟨n, b, cd⟩ := ac
    simp [aset_aset, aset_self hac']

/-- Rollback to a savepoint taken at `st` recovers `st` from any state
reached by logged operations. -/
theorem rollback_revertsTo {st' st : St} (h : RevertsTo st' st) :
    st'.rollback st.savepoint = st := h.2

/-! ### Observation lemmas about the state operations -/

@[simp] theorem account_pushLog (st : St) (c : Change) (b : Address) :
    (st.pushLog c).account b = st.account b := rfl

@[simp] theorem account_touchAcct (st : St) (a b : Address) :
    (st.touchAcct a).account b = st.account b := by
  unfold St.touchAcct
  split <;> rfl

@[simp] theorem touched_pushLog (st : St) (c : Change) :
    (st.pushLog c).touched = st.touched := rfl

theorem account_modifyAcct_self (st : St) (a : Address) (f : Acct → Acct) :
    (st.modifyAcct a f).account a = (st.account a).map f := by
  unfold St.modifyAcct
  cases h : st.account a with
  | none => simp [h]
  | some ac => simp [St.account, h]

theorem account_modifyAcct_ne (st : St) (a : Address) (f : Acct → Acct) {b : Address}
    (h : b ≠ a) : (st.modifyAcct a f).account b = st.account b := by
  unfold St.modifyAcct
  cases hx : st.account a with
  | none => rfl
  | some ac => simp [St.account, alookup_aset_ne h]

theorem account_createAcct_ne (st : St) (a : Address) {b : Address} (h : b ≠ a) :
    (st.createAcct a).account b = st.account b := by
  simp [St.createAcct, St.account, alookup_aset_ne h]

theorem account_addBalance_self (st : St) (a : Address) (v : Nat) :
    ∃ ac0 : Acct, (st.addBalance a v).account a = some { ac0 with balance := ac0.balance + v } ∧
      ac0.balance = st.balance a ∧ ac0.nonce = st.getNonce a := by
  unfold St.addBalance
  simp only [account_touchAcct]
  by_cases hex : (st.account a).isSome
  · obtain ⟨ac, hac⟩ := Option.isSome_iff_exists.mp hex
    refine ⟨ac, ?_, by simp [St.balance, hac], by simp [St.getNonce, hac]⟩
    by_cases hv : v = 0
    · simp [hv, hex, hac]
    · simp [hv, hex, account_modifyAcct_self, hac]
  · have hnone := accountIsNone_of_not_isSome hex
    refine ⟨⟨st.startNonce, 0, []⟩, ?_, by simp [St.balance, hnone], by simp [St.getNonce, hnone]⟩
    by_cases hv : v = 0
    · simp [hv, hex, createAcct_account_self]
    · simp [hv, hex, account_modifyAcct_self, createAcct_account_self]

theorem balance_addBalance_self (st : St) (a : Address) (v : Nat) :
    (st.addBalance a v).balance a = st.balance a + v := by
  obtain ⟨ac0, hacc, hbal, _⟩ := account_addBalance_self st a v
  simp [St.balance, hacc, hbal]

theorem account_addBalance_ne (st : St) (a : Address) (v : Nat) {b : Address} (h : b ≠ a) :
    (st.addBalance a v).account b = st.account b := by
  unfold St.addBalance
  simp only [account_touchAcct]
  by_cases hex : (st.account a).isSome <;> by_cases hv : v = 0 <;>
    simp [hex, hv, account_modifyAcct_ne _ _ _ h, account_createAcct_ne _ _ h]

theorem balance_addBalance_ne (st : St) (a : Address) (v : Nat) {b : Address} (h : b ≠ a) :
    (st.addBalance a v).balance b = st.balance b := by
  simp [St.balance, account_addBalance_ne st a v h]

theorem mem_touched_addBalance_self (st : St) (a : Address) (v : Nat) :
    a ∈ (st.addBalance a v).touched := by
  unfold St.addBalance St.touchAcct
  by_cases hmem : a ∈ (if h : True then
      (if v ≠ 0 then
        ((if (st.account a).isSome then st else st.createAcct a).modifyAcct a
          fun ac => { ac with balance := ac.balance + v }).pushLog (Change.balance a (v : Int))
      else if (st.account a).isSome then st else st.createAcct a)
    else st).touched
  all_goals
    by_cases hex : (st.account a).isSome <;> by_cases hv : v = 0 <;>
      simp_all [St.modifyAcct, St.createAcct, St.pushLog] <;>
      split <;> simp_all

theorem isSome_account_addBalance_self (st : St) (a : Address) (v : Nat) :
    ((st.addBalance a v).account a).isSome = true := by
  obtain ⟨ac0, hacc, _, _⟩ := account_addBalance_self st a v
  simp [hacc]

theorem account_incNonce_self (st : St) (a : Address) :
    ∃ ac0 : Acct, (st.incNonce a).account a = some { ac0 with nonce := ac0.nonce + 1 } ∧
      ac0.balance = st.balance a ∧ ac0.nonce = st.getNonce a := by
  unfold St.incNonce
  by_cases hex : (st.account a).isSome
  · obtain ⟨ac, hac⟩ := Option.isSome_iff_exists.mp hex
    exact ⟨ac, by simp [hex, account_modifyAcct_self, hac], by simp [St.balance, hac],
      by simp [St.getNonce, hac]⟩
  · have hnone := accountIsNone_of_not_isSome hex
    exact ⟨⟨st.startNonce, 0, []⟩,
      by simp [hex, account_modifyAcct_self, createAcct_account_self],
      by simp [St.balance, hnone], by simp [St.getNonce, hnone]⟩

theorem getNonce_incNonce_self (st : St) (a : Address) :
    (st.incNonce a).getNonce a = st.getNonce a + 1 := by
  obtain ⟨ac0, hacc, _, hn⟩ := account_incNonce_self st a
  simp [St.getNonce, hacc, hn]

theorem balance_incNonce (st : St) (a b : Address) :
    (st.incNonce a).balance b = st.balance b := by
  by_cases h : b = a
  · subst h
    obtain ⟨ac0, hacc, hb, _⟩ := account_incNonce_self st b
    simp [St.balance, hacc, hb]
  · unfold St.incNonce
    by_cases hex : (st.account a).isSome <;>
      simp [St.balance, hex, account_modifyAcct_ne _ _ _ h, account_createAcct_ne _ _ h]

theorem account_incNonce_ne (st : St) (a : Address) {b : Address} (h : b ≠ a) :
    (st.incNonce a).account b = st.account b := by
  unfold St.incNonce
  by_cases hex : (st.account a).isSome <;>
    simp [hex, account_modifyAcct_ne _ _ _ h, account_createAcct_ne _ _ h]

theorem subBalance_ok_balance {st st' : St} {a : Address} {v : Nat}
    (h : st.subBalance a v = .ok st') : st'.balance a = st.balance a - v := by
  unfold St.subBalance at h
  by_cases hlt : st.balance a < v
  · simp [hlt] at h
  · by_cases hv : v = 0
    · simp only [hlt, if_false, hv, if_true] at h
      injection h with h
      simp [← h, hv]
    · simp only [hlt, if_false, hv, if_true] at h
      injection h with h
      subst h
      simp only [St.balance, account_pushLog, account_modifyAcct_self]
      cases hx : st.account a with
      | none =>
        exfalso
        apply hlt
        simpa [St.balance, hx] using Nat.pos_of_ne_zero hv
      | some ac => simp [St.balance, hx]

theorem subBalance_ok_account_ne {st st' : St} {a : Address} {v : Nat} {b : Address}
    (h : st.subBalance a v = .ok st') (hne : b ≠ a) : st'.account b = st.account b := by
  unfold St.subBalance at h
  by_cases hlt : st.balance a < v
  · simp [hlt] at h
  · by_cases hv : v = 0
    · simp only [hlt, if_false, hv, if_true] at h
      injection h with h
      rw [← h]
    · simp only [hlt, if_false, hv, if_true] at h
      injection h with h
      rw [← h]
      simp [account_modifyAcct_ne _ _ _ hne]

@[simp] theorem startNonce_pushLog (st : St) (c : Change) :
    (st.pushLog c).startNonce = st.startNonce := rfl

@[simp] theorem startNonce_modifyAcct (st : St) (a : Address) (f : Acct → Acct) :
    (st.modifyAcct a f).startNonce = st.startNonce := by
  unfold St.modifyAcct
  cases st.account a <;> rfl

theorem subBalance_ok_startNonce {st st' : St} {a : Address} {v : Nat}
    (h : st.subBalance a v = .ok st') : st'.startNonce = st.startNonce := by
  unfold St.subBalance at h
  by_cases hlt : st.balance a < v
  · simp [hlt] at h
  · by_cases hv : v = 0
    · simp only [hlt, if_false, hv, if_true] at h
      injection h with h
      rw [← h]
    · simp only [hlt, if_false, hv, if_true] at h
      injection h with h
      rw [← h]
      simp

theorem subBalance_ok_getNonce {st st' : St} {a : Address} {v : Nat}
    (h : st.subBalance a v = .ok st') (b : Address) : st'.getNonce b = st.getNonce b := by
  have hsn := subBalance_ok_startNonce h
  by_cases hne : b = a
  · subst hne
    unfold St.subBalance at h
    by_cases hlt : st.balance b < v
    · simp [hlt] at h
    · by_cases hv : v = 0
      · simp only [hlt, if_false, hv, if_true] at h
        injection h with h
        rw [← h]
      · simp only [hlt, if_false, hv, if_true] at h
        injection h with h
        rw [← h]
        simp only [St.getNonce, account_pushLog, account_modifyAcct_self,
          startNonce_pushLog, startNonce_modifyAcct]
        cases hx : st.account b <;> simp [St.getNonce, hx]
  · simp [St.getNonce, subBalance_ok_account_ne h hne, hsn]

theorem balance_kill_ne (st : St) (a : Address) {b : Address} (h : b ≠ a) :
    (st.kill a).balance b = st.balance b := by
  simp [St.kill, St.balance, St.account, alookup_aremove_ne h]

theorem balance_foldl_kill (l : List Address) (st : St) {b : Address} (h : b ∉ l) :
    (l.foldl St.kill st).balance b = st.balance b := by
  induction l generalizing st with
  | nil => rfl
  | cons a t ih =>
    simp only [List.mem_cons, not_or] at h
    simpa [List.foldl_cons, ih _ h.2] using balance_kill_ne st a h.1

/-! ### Claim C1 -/

/-- Claim C1: Executive::initialize checks its four pre-conditions in
exactly this order -- (1) `env.gasUsed + tx.gas <= env.gasLimit` else
BlockGasLimitReached, (2) intrinsic `baseGas <= tx.gas` else OutOfGasBase,
(3) `tx.nonce` equals the sender's current nonce else InvalidNonce (a
failing nonce lookup maps to InvalidSignature), (4)
`balance(sender) >= tx.gas * tx.gasPrice + tx.value` else NotEnoughCash --
and for every transaction failing any check it records the corresponding
distinct TransactionException and terminates (second component `some e`)
with no state change and no gas deducted. -/
theorem c1_initTx_checks (tx : Transaction) (baseGas : Nat) (ex : Exec) :
    ((initTx tx baseGas ex).1.st = ex.st ∧ (initTx tx baseGas ex).1.gas = ex.gas) ∧
    (ex.envInfo.gasLimit < ex.envInfo.gasUsed + tx.gas →
      (initTx tx baseGas ex).2 = some TxExc.blockGasLimitReached ∧
      (initTx tx baseGas ex).1.excepted = some TxExc.blockGasLimitReached) ∧
    (ex.envInfo.gasUsed + tx.gas ≤ ex.envInfo.gasLimit → tx.gas < baseGas →
      (initTx tx baseGas ex).2 = some TxExc.outOfGasBase ∧
      (initTx tx baseGas ex).1.excepted = some TxExc.outOfGasBase) ∧
    (ex.envInfo.gasUsed + tx.gas ≤ ex.envInfo.gasLimit → baseGas ≤ tx.gas →
      tx.sender = none →
      (initTx tx baseGas ex).2 = some TxExc.invalidSignature ∧
      (initTx tx baseGas ex).1.excepted = some TxExc.invalidSignature) ∧
    (∀ s : Address, ex.envInfo.gasUsed + tx.gas ≤ ex.envInfo.gasLimit →
      baseGas ≤ tx.gas → tx.sender = some s → tx.nonce ≠ ex.st.getNonce s →
      (initTx tx baseGas ex).2 = some TxExc.invalidNonce ∧
      (initTx tx baseGas ex).1.excepted = some TxExc.invalidNonce) ∧
    (∀ s : Address, ex.envInfo.gasUsed + tx.gas ≤ ex.envInfo.gasLimit →
      baseGas ≤ tx.gas → tx.sender = some s → tx.nonce = ex.st.getNonce s →
      ex.st.balance s < tx.value + tx.gas * tx.gasPrice →
      (initTx tx baseGas ex).2 = some TxExc.notEnoughCash ∧
      (initTx tx baseGas ex).1.excepted = some TxExc.notEnoughCash) ∧
    (∀ s : Address, ex.envInfo.gasUsed + tx.gas ≤ ex.envInfo.gasLimit →
      baseGas ≤ tx.gas → tx.sender = some s → tx.nonce = ex.st.getNonce s →
      tx.value + tx.gas * tx.gasPrice ≤ ex.st.balance s →
      (initTx tx baseGas ex).2 = none ∧
      (initTx tx baseGas ex).1.gasCost = tx.gas * tx.gasPrice) ∧
    ([TxExc.blockGasLimitReached, TxExc.outOfGasBase, TxExc.invalidSignature,
      TxExc.invalidNonce, TxExc.notEnoughCash].Pairwise (· ≠ ·)) := by
  refine ⟨?_, ?_, ?_, ?_, ?_, ?_, ?_, by decide⟩
  · simp only [initTx]
    constructor <;> (repeat' split) <;> rfl
  · intro h1
    simp [initTx, h1]
  · intro h1 h2
    have h1n : ¬ex.envInfo.gasLimit < ex.envInfo.gasUsed + tx.gas := Nat.not_lt.mpr h1
    simp [initTx, h1n, h2]
  · intro h1 h2 h3
    have h1n : ¬ex.envInfo.gasLimit < ex.envInfo.gasUsed + tx.gas := Nat.not_lt.mpr h1
    have h2n : ¬tx.gas < baseGas := Nat.not_lt.mpr h2
    simp [initTx, h1n, h2n, h3]
  · intro s h1 h2 h3 h4
    have h1n : ¬ex.envInfo.gasLimit < ex.envInfo.gasUsed + tx.gas := Nat.not_lt.mpr h1
    have h2n : ¬tx.gas < baseGas := Nat.not_lt.mpr h2
    simp [initTx, h1n, h2n, h3, h4]
  · intro s h1 h2 h3 h4 h5
    have h1n : ¬ex.envInfo.gasLimit < ex.envInfo.gasUsed + tx.gas := Nat.not_lt.mpr h1
    have h2n : ¬tx.gas < baseGas := Nat.not_lt.mpr h2
    simp [initTx, h1n, h2n, h3, h4, h5]
  · intro s h1 h2 h3 h4 h5
    have h1n : ¬ex.envInfo.gasLimit < ex.envInfo.gasUsed + tx.gas := Nat.not_lt.mpr h1
    have h2n : ¬tx.gas < baseGas := Nat.not_lt.mpr h2
    have h5n : ¬ex.st.balance s < tx.value + tx.gas * tx.gasPrice := Nat.not_lt.mpr h5
    simp [initTx, h1n, h2n, h3, h4, h5n]

/-- Witness for C1 at a concrete unaffordable transaction: account 1 of
`stW` has nonce 5 and balance 1,000,000, the transaction asks for
30,000 gas at price 100 (cost 3,000,000), so the NotEnoughCash branch of
the theorem fires. -/
theorem c1_initTx_checks_witness :
    (envW.gasUsed + 30000 ≤ envW.gasLimit ∧ (21000 : Nat) ≤ 30000 ∧
      (5 : Nat) = stW.getNonce 1 ∧ stW.balance 1 < 0 + 30000 * 100) ∧
    ((initTx ⟨5, 100, 30000, some 2, 0, [], some 1⟩ 21000 exW).2 =
        some TxExc.notEnoughCash ∧
      (initTx ⟨5, 100, 30000, some 2, 0, [], some 1⟩ 21000 exW).1.excepted =
        some TxExc.notEnoughCash) := by
  refine ⟨by decide, ?_⟩
  exact (c1_initTx_checks ⟨5, 100, 30000, some 2, 0, [], some 1⟩ 21000 exW).2.2.2.2.2.1 1
    (by decide) (by decide) rfl (by decide) (by decide)

theorem changeLog_modifyAcct (st : St) (a : Address) (f : Acct → Acct) :
    (st.modifyAcct a f).changeLog = st.changeLog := by
  unfold St.modifyAcct
  cases st.account a <;> rfl

theorem mem_changeLog_touchAcct {c : Change} {st : St} (a : Address)
    (h : c ∈ st.changeLog) : c ∈ (st.touchAcct a).changeLog := by
  unfold St.touchAcct
  split
  · exact h
  · exact List.mem_cons_of_mem _ h

theorem mem_changeLog_addBalance {c : Change} {st : St} (a : Address) (v : Nat)
    (h : c ∈ st.changeLog) : c ∈ (st.addBalance a v).changeLog := by
  unfold St.addBalance
  simp only []
  apply mem_changeLog_touchAcct
  by_cases hv : v = 0 <;> by_cases hex : (st.account a).isSome <;>
    simp [hv, hex, St.pushLog, changeLog_modifyAcct, St.createAcct] <;>
    simp [h]

theorem mem_balEntry_addBalance (st : St) (a : Address) {v : Nat} (hv : v ≠ 0) :
    Change.balance a (v : Int) ∈ (st.addBalance a v).changeLog := by
  unfold St.addBalance
  simp only []
  apply mem_changeLog_touchAcct
  by_cases hex : (st.account a).isSome <;>
    simp [hv, hex, St.pushLog, changeLog_modifyAcct, St.createAcct]

theorem subBalance_ok_mem {st st' : St} {a : Address} {v : Nat}
    (h : st.subBalance a v = .ok st') (hv : v ≠ 0) :
    Change.balance a (-(v : Int)) ∈ st'.changeLog := by
  unfold St.subBalance at h
  by_cases hlt : st.balance a < v
  · simp [hlt] at h
  · simp only [hlt, if_false, hv, if_true] at h
    injection h with h
    rw [← h]
    simp [St.pushLog]

/-- Claim C9: State::subBalance fails with NotEnoughCash whenever the
account's balance is less than the amount to subtract (including when the
account does not exist, whose balance reads as 0), and
State::transferBalance performs the subtraction from the source before the
addition to the destination, so that on a NotEnoughCash failure neither
the subtraction nor the addition is logged and the state is unchanged
(the operation aborts before any mutation), while on success both are
applied: the source loses `v`, the destination gains `v`, and both signed
balance deltas are in the changelog. -/
theorem c9_transferBalance_atomic (st : St) (f t : Address) (v : Nat) :
    (st.subBalance f v = .error TxExc.notEnoughCash ↔ st.balance f < v) ∧
    (st.account f = none → st.balance f = 0) ∧
    (st.balance f < v → st.transferBalance f t v = .error TxExc.notEnoughCash) ∧
    (v ≤ st.balance f →
      stOk (st.transferBalance f t v) = true ∧
      (f ≠ t →
        (stGet st (st.transferBalance f t v)).balance f = st.balance f - v ∧
        (stGet st (st.transferBalance f t v)).balance t = st.balance t + v) ∧
      (v ≠ 0 →
        Change.balance f (-(v : Int)) ∈ (stGet st (st.transferBalance f t v)).changeLog ∧
        Change.balance t (v : Int) ∈ (stGet st (st.transferBalance f t v)).changeLog)) := by
  refine ⟨?_, ?_, ?_, ?_⟩
  · constructor
    · intro h
      by_contra hlt
      simp only [St.subBalance, hlt, if_false] at h
      split at h <;> simp at h
    · intro h
      simp [St.subBalance, h]
  · intro h
    simp [St.balance, h]
  · intro h
    simp [St.transferBalance, St.subBalance, h]
  · intro hle
    have hnlt : ¬st.balance f < v := Nat.not_lt.mpr hle
    have hsub : ∃ st1, st.subBalance f v = .ok st1 := by
      unfold St.subBalance
      by_cases hv : v = 0 <;> simp [hnlt, hv]
    obtain ⟨st1, hsub⟩ := hsub
    have htr : st.transferBalance f t v = .ok (st1.addBalance t v) := by
      simp [St.transferBalance, hsub]
    refine ⟨by simp [htr, stOk], ?_, ?_⟩
    · intro hne
      constructor
      · rw [htr]
        simp only [stGet]
        rw [balance_addBalance_ne st1 t v (fun hh => hne (hh ▸ rfl)),
          subBalance_ok_balance hsub]
      · rw [htr]
        simp only [stGet]
        rw [balance_addBalance_self]
        have : st1.balance t = st.balance t := by
          simp [St.balance, subBalance_ok_account_ne hsub (fun hh => hne (hh ▸ rfl) : t ≠ f)]
        rw [this]
    · intro hv
      rw [htr]
      simp only [stGet]
      exact ⟨mem_changeLog_addBalance t v (subBalance_ok_mem hsub hv),
        mem_balEntry_addBalance st1 t hv⟩

/-- Witness for C9: transferring 300 wei from account 1 (balance
1,000,000) to account 2 in `stW` takes the success branch of the
theorem. -/
theorem c9_transferBalance_atomic_witness :
    ((300 : Nat) ≤ stW.balance 1) ∧
    (stOk (stW.transferBalance 1 2 300) = true ∧
      ((1 : Nat) ≠ 2 →
        (stGet stW (stW.transferBalance 1 2 300)).balance 1 = stW.balance 1 - 300 ∧
        (stGet stW (stW.transferBalance 1 2 300)).balance 2 = stW.balance 2 + 300) ∧
      ((300 : Nat) ≠ 0 →
        Change.balance 1 (-(300 : Int)) ∈ (stGet stW (stW.transferBalance 1 2 300)).changeLog ∧
        Change.balance 2 ((300 : Nat) : Int) ∈
          (stGet stW (stW.transferBalance 1 2 300)).changeLog)) := by
  refine ⟨by decide, ?_⟩
  exact (c9_transferBalance_atomic stW 1 2 300).2.2.2 (by decide)

/-! ### Claim C10 -/

/-- Claim C10: Executive::go returns true on every execution path on which
it returns at all -- including when no ExtVM frame is installed and when a
VM exception was caught and the frame reverted (`go = none` models the
`exit(1)` paths, which do not return) -- so a frame's failure is
observable only through the recorded TransactionException, the zeroed gas
and the rolled-back state, never through go's return value. -/
theorem c10_go_returns_true (outcome : VMOutcome) (ex : Exec) (r : Bool × Exec)
    (h : go outcome ex = some r) : r.1 = true := by
  unfold go at h
  split at h
  · injection h with h
    rw [← h]
  · split at h
    all_goals try exact Option.noConfusion h
    all_goals try (injection h with h; rw [← h])
    all_goals simp only [] at h
    all_goals repeat' split at h
    all_goals (injection h with h; rw [← h])

/-- Witness for C10: a concrete frame with no ExtVM installed returns, and
returns true. -/
theorem c10_go_returns_true_witness :
    go VMOutcome.fatal exW = some (true, exW) ∧ (true, exW).1 = true :=
  ⟨rfl, c10_go_returns_true VMOutcome.fatal exW (true, exW) rfl⟩

/-- Claim C2 counterexample: at the concrete executive `exC2`, whose
schedule has `haveRevert = true`, an explicit revert exception with 5 gas
remaining leaves the frame with 0 gas -- the remaining gas is NOT
preserved for the caller, contradicting the claim's revert clause
(Executive.cpp's catch block sets `m_gas = 0` unconditionally). -/
theorem c2_go_counterexample :
    exC2.ext = some extC2 ∧ extC2.sched.haveRevert = true ∧
    (goExecD exC2 (go (.vmError .revertInstruction 5) exC2)).excepted =
      some TxExc.revertInstruction ∧
    (goExecD exC2 (go (.vmError .revertInstruction 5) exC2)).gas = 0 ∧
    (goExecD exC2 (go (.vmError .revertInstruction 5) exC2)).gas ≠ 5 := by
  decide

/-- Claim C2 (amended): for every VM exception raised during Executive::go
(stack under/overflow, bad jump, out-of-gas, and also explicit revert --
the remaining gas is NOT preserved on revert, whatever the schedule says),
the frame's remaining gas is set to 0, the exception is mapped to the
corresponding TransactionException by toTransactionException, the frame's
SubState is cleared, the result address is nulled, and the state is rolled
back to the frame's savepoint. -/
theorem c2_go_vm_exception (ex : Exec) (f : ExtFrame) (e : VMExc) (gasLeft : Nat)
    (hext : ex.ext = some f) :
    (go (.vmError e gasLeft) ex).map Prod.fst = some true ∧
    (goExecD ex (go (.vmError e gasLeft) ex)).gas = 0 ∧
    (goExecD ex (go (.vmError e gasLeft) ex)).excepted = some (toTransactionExc e) ∧
    (goExecD ex (go (.vmError e gasLeft) ex)).ext = some { f with sub := SubState.empty } ∧
    (goExecD ex (go (.vmError e gasLeft) ex)).newAddress = none ∧
    (goExecD ex (go (.vmError e gasLeft) ex)).st = ex.st.rollback ex.savepoint := by
  simp [go, hext, goExecD, revertE]

/-- Witness for C2 (amended) at the concrete frame `exC2` and a stack
underflow with 3 gas left. -/
theorem c2_go_vm_exception_witness :
    exC2.ext = some extC2 ∧
    ((go (.vmError .stackUnderflow 3) exC2).map Prod.fst = some true ∧
      (goExecD exC2 (go (.vmError .stackUnderflow 3) exC2)).gas = 0 ∧
      (goExecD exC2 (go (.vmError .stackUnderflow 3) exC2)).excepted =
        some (toTransactionExc .stackUnderflow) ∧
      (goExecD exC2 (go (.vmError .stackUnderflow 3) exC2)).ext =
        some { extC2 with sub := SubState.empty } ∧
      (goExecD exC2 (go (.vmError .stackUnderflow 3) exC2)).newAddress = none ∧
      (goExecD exC2 (go (.vmError .stackUnderflow 3) exC2)).st =
        exC2.st.rollback exC2.savepoint) :=
  ⟨rfl, c2_go_vm_exception exC2 extC2 .stackUnderflow 3 rfl⟩

/-! ### Claim C6 -/

theorem createE_newAddress (crypto : Crypto) (se : SealEngine) (sched : Schedule)
    (sender : Address) (endowment gasPrice gas : Nat) (initCode : Bytes) (origin : Address)
    (ex : Exec)
    (hok : retOk (createE crypto se sched sender endowment gasPrice gas initCode origin ex) =
      true) :
    (retExec ex (createE crypto se sched sender endowment gasPrice gas initCode origin ex)).newAddress =
      some (crypto.right160 (crypto.sha3 (rlpList2 sender (ex.st.getNonce sender)))) := by
  unfold createE at hok ⊢
  simp only [] at hok ⊢
  cases htr : (ex.st.incNonce sender).transferBalance sender
      (crypto.right160 (crypto.sha3 (rlpList2 sender (ex.st.getNonce sender)))) endowment with
  | error e =>
    simp only [htr, retOk] at hok
    exact absurd hok (by simp)
  | ok st2 =>
    simp only [htr] at hok ⊢
    split <;> simp [retExec]

/-- Claim C6: for every sender and transaction, the contract address
computed by Executive::create equals
`low160(keccak(rlp([sender, nonce])))` where `nonce` is the sender's nonce
fetched before the increment performed by create (i.e. the nonce in the
entry state); hence for fixed `(sender, nonce)` the CREATE address is a
pure function of those two inputs, independent of every other input. -/
theorem c6_create_address_pure (crypto : Crypto) (se : SealEngine) (sched : Schedule)
    (sender : Address) (endowment gasPrice gas : Nat) (initCode : Bytes) (origin : Address)
    (ex : Exec)
    (hok : retOk (createE crypto se sched sender endowment gasPrice gas initCode origin ex) =
      true) :
    ((retExec ex (createE crypto se sched sender endowment gasPrice gas initCode origin ex)).newAddress =
      some (crypto.right160 (crypto.sha3 (rlpList2 sender (ex.st.getNonce sender))))) ∧
    (∀ (endowment2 gasPrice2 gas2 : Nat) (initCode2 : Bytes) (origin2 : Address) (ex2 : Exec),
      retOk (createE crypto se sched sender endowment2 gasPrice2 gas2 initCode2 origin2 ex2) =
        true →
      ex2.st.getNonce sender = ex.st.getNonce sender →
      (retExec ex2 (createE crypto se sched sender endowment2 gasPrice2 gas2 initCode2 origin2 ex2)).newAddress =
      (retExec ex (createE crypto se sched sender endowment gasPrice gas initCode origin ex)).newAddress) := by
  refine ⟨createE_newAddress crypto se sched sender endowment gasPrice gas initCode origin ex hok,
    ?_⟩
  intro endowment2 gasPrice2 gas2 initCode2 origin2 ex2 hok2 hnonce
  rw [createE_newAddress crypto se sched sender endowment2 gasPrice2 gas2 initCode2 origin2 ex2
      hok2,
    createE_newAddress crypto se sched sender endowment gasPrice gas initCode origin ex hok,
    hnonce]

/-- Witness for C6: a concrete create from account 1 of `stW` (nonce 5,
endowment 10) succeeds and derives the address from `(1, 5)`. -/
theorem c6_create_address_pure_witness :
    retOk (createE cryptoW seW schedW 1 10 1 50000 [] 1 exW) = true ∧
    (retExec exW (createE cryptoW seW schedW 1 10 1 50000 [] 1 exW)).newAddress =
      some (cryptoW.right160 (cryptoW.sha3 (rlpList2 1 (exW.st.getNonce 1)))) :=
  ⟨by decide, (c6_create_address_pure cryptoW seW schedW 1 10 1 50000 [] 1 exW (by decide)).1⟩

/-! ### Claim C4 -/

/-- Claim C4: in Executive::call, when codeAddress is a precompile and the
supplied gas is strictly below the precompile's cost, the exception is set
to OutOfGasBase and the dispatch returns true with no VM frame installed;
if additionally the block number is at or past the EIP-158 fork block,
codeAddress is touched via `addBalance(codeAddress, 0)` (it ends up in the
touched set and present in the cache) so the empty-account cleanup can
purge it. -/
theorem c4_call_precompile_oog (se : SealEngine) (sched : Schedule) (p : CallParameters)
    (gasPrice : Nat) (origin : Address) (ex : Exec)
    (hpre : se.isPrecompiled p.codeAddress ex.envInfo.number = true)
    (hgas : p.gas < se.costOfPrecompiled p.codeAddress p.data ex.envInfo.number) :
    retOk (callE se sched p gasPrice origin ex) = true ∧
    retBool (callE se sched p gasPrice origin ex) = true ∧
    (retExec ex (callE se sched p gasPrice origin ex)).excepted = some TxExc.outOfGasBase ∧
    (retExec ex (callE se sched p gasPrice origin ex)).ext = ex.ext ∧
    (se.eip158ForkBlock ≤ ex.envInfo.number →
      p.codeAddress ∈ (retExec ex (callE se sched p gasPrice origin ex)).st.touched ∧
      ((retExec ex (callE se sched p gasPrice origin ex)).st.account p.codeAddress).isSome =
        true) := by
  by_cases htop : ex.isTop <;> by_cases hfork : se.eip158ForkBlock ≤ ex.envInfo.number <;>
    refine ⟨?_, ?_, ?_, ?_, ?_⟩ <;>
    simp [callE, htop, hfork, hpre, hgas, retOk, retBool, retExec,
      mem_touched_addBalance_self, isSome_account_addBalance_self]

/-- Witness for C4: calling precompile address 3 of `seW` with 10 gas
(cost is 18) at block 150 (past the fork block 100). -/
theorem c4_call_precompile_oog_witness :
    seW.isPrecompiled 3 exW.envInfo.number = true ∧
    (10 : Nat) < seW.costOfPrecompiled 3 [] exW.envInfo.number ∧
    (retOk (callE seW schedW ⟨1, 3, 3, 0, 0, 10, []⟩ 1 1 exW) = true ∧
      retBool (callE seW schedW ⟨1, 3, 3, 0, 0, 10, []⟩ 1 1 exW) = true ∧
      (retExec exW (callE seW schedW ⟨1, 3, 3, 0, 0, 10, []⟩ 1 1 exW)).excepted =
        some TxExc.outOfGasBase ∧
      (retExec exW (callE seW schedW ⟨1, 3, 3, 0, 0, 10, []⟩ 1 1 exW)).ext = exW.ext ∧
      (seW.eip158ForkBlock ≤ exW.envInfo.number →
        (3 : Address) ∈ (retExec exW (callE seW schedW ⟨1, 3, 3, 0, 0, 10, []⟩ 1 1 exW)).st.touched ∧
        ((retExec exW (callE seW schedW ⟨1, 3, 3, 0, 0, 10, []⟩ 1 1 exW)).st.account 3).isSome =
          true)) :=
  ⟨rfl, by decide, c4_call_precompile_oog seW schedW ⟨1, 3, 3, 0, 0, 10, []⟩ 1 1 exW rfl
    (by decide)⟩

theorem codeOf_setNewCode_self (st : St) (a : Address) (c : Bytes)
    (h : (st.account a).isSome = true) : (st.setNewCode a c).codeOf a = c := by
  obtain ⟨ac, hac⟩ := Option.isSome_iff_exists.mp h
  have hac' : alookup a st.accounts = some ac := hac
  unfold St.setNewCode St.codeOf
  simp [St.account, hac', St.pushLog]

/-- Claim C5: on normal VM return in a CREATE frame within Executive::go,
if the returned bytecode `out` satisfies `|out| > maxCodeSize` an
out-of-gas exception is raised (caught by the same frame: OutOfGas is
recorded, gas is zeroed and the frame reverts); otherwise if remaining gas
`>= |out| * createDataGas` the deposit is deducted, the code is installed
via setNewCode, and CodeDeposit::Success is recorded; otherwise, when the
schedule does not mark failed code deposit as exceptional,
CodeDeposit::Failed is recorded and the new account's code is left unset
(empty). -/
theorem c5_go_code_deposit (ex : Exec) (f : ExtFrame) (r : ExecRes) (out : Bytes)
    (gasLeft : Nat) (hext : ex.ext = some f) (hcre : ex.isCreation = true)
    (hres : ex.res = some r) (hacct : ((ex.st.account f.myAddress).isSome) = true) :
    (f.sched.maxCodeSize < out.length →
      (go (.success out gasLeft) ex).map Prod.fst = some true ∧
      (goExecD ex (go (.success out gasLeft) ex)).excepted = some TxExc.outOfGas ∧
      (goExecD ex (go (.success out gasLeft) ex)).gas = 0 ∧
      (goExecD ex (go (.success out gasLeft) ex)).st = ex.st.rollback ex.savepoint) ∧
    (out.length ≤ f.sched.maxCodeSize →
      out.length * f.sched.createDataGas ≤ gasLeft →
      (goExecD ex (go (.success out gasLeft) ex)).gas =
        gasLeft - out.length * f.sched.createDataGas ∧
      (goExecD ex (go (.success out gasLeft) ex)).st.codeOf f.myAddress = out ∧
      ((goExecD ex (go (.success out gasLeft) ex)).res).map ExecRes.codeDeposit =
        some CodeDeposit.success) ∧
    (out.length ≤ f.sched.maxCodeSize →
      gasLeft < out.length * f.sched.createDataGas →
      f.sched.exceptionalFailedCodeDeposit = false →
      ((goExecD ex (go (.success out gasLeft) ex)).res).map ExecRes.codeDeposit =
        some CodeDeposit.failed ∧
      (goExecD ex (go (.success out gasLeft) ex)).st.codeOf f.myAddress = [] ∧
      (goExecD ex (go (.success out gasLeft) ex)).gas = gasLeft) := by
  refine ⟨?_, ?_, ?_⟩
  · intro hbig
    simp [go, hext, hcre, hres, setRes, goExecD, hbig, revertE, toTransactionExc]
  · intro hsize hdep
    have hbig : ¬f.sched.maxCodeSize < out.length := Nat.not_lt.mpr hsize
    simp [go, hext, hcre, hres, setRes, goExecD, hbig, hdep,
      codeOf_setNewCode_self _ _ _ hacct]
  · intro hsize hdep hexc
    have hbig : ¬f.sched.maxCodeSize < out.length := Nat.not_lt.mpr hsize
    have hdep' : ¬out.length * f.sched.createDataGas ≤ gasLeft := Nat.not_le.mpr hdep
    simp [go, hext, hcre, hres, setRes, goExecD, hbig, hdep', hexc,
      codeOf_setNewCode_self _ _ _ hacct]

/-- Witness for C5 at the successful-deposit branch: frame on account 2,
3 bytes of returned code, 1000 gas left, deposit 600. -/
theorem c5_go_code_deposit_witness :
    ([1, 2, 3] : Bytes).length ≤ extC2.sched.maxCodeSize ∧
    ([1, 2, 3] : Bytes).length * extC2.sched.createDataGas ≤ 1000 ∧
    ((goExecD exC5 (go (.success [1, 2, 3] 1000) exC5)).gas =
      1000 - ([1, 2, 3] : Bytes).length * extC2.sched.createDataGas ∧
    (goExecD exC5 (go (.success [1, 2, 3] 1000) exC5)).st.codeOf extC2.myAddress = [1, 2, 3] ∧
    ((goExecD exC5 (go (.success [1, 2, 3] 1000) exC5)).res).map ExecRes.codeDeposit =
      some CodeDeposit.success) :=
  ⟨by decide, by decide,
    (c5_go_code_deposit exC5 extC2 ⟨0, 0, .noDeposit, [], 0, none, none, 0⟩ [1, 2, 3] 1000
      rfl rfl rfl (by decide)).2.1 (by decide) (by decide)⟩

/-! ### Claim C3 -/

theorem gas_setRes (ex : Exec) (fn : ExecRes → ExecRes) : (setRes ex fn).gas = ex.gas := by
  unfold setRes
  cases ex.res <;> rfl

theorem st_setRes (ex : Exec) (fn : ExecRes → ExecRes) : (setRes ex fn).st = ex.st := by
  unfold setRes
  cases ex.res <;> rfl

theorem refunded_setRes (ex : Exec) (fn : ExecRes → ExecRes) :
    (setRes ex fn).refunded = ex.refunded := by
  unfold setRes
  cases ex.res <;> rfl

/-- Claim C3: in Executive::finalize, with `remainingGas = ex.gas` the gas
left before refunds, the applied refund equals
`min((tx.gas - remainingGas) / 2, sub.refunds)` (integer division, after
`sub.refunds` has been incremented by `suicideRefundGas` times the number
of suicides); this refund is added to the remaining gas before fees are
computed, the sender is then credited `(remainingGas + refund) * gasPrice`,
the coinbase receives `(tx.gas - remainingGas - refund) * gasPrice`, and
`gasUsed + remainingGas + refund = tx.gas` with
`refund <= (tx.gas - remainingGas) / 2`. -/
theorem c3_finalize_accounting (tx : Transaction) (ex : Exec) (f : ExtFrame) (s : Address)
    (hext : ex.ext = some f) (htop : ex.isTop = true) (hs : tx.sender = some s)
    (hgle : ex.gas ≤ tx.gas) (hsa : s ≠ ex.envInfo.author)
    (hskill : s ∉ f.sub.suicides) (hakill : ex.envInfo.author ∉ f.sub.suicides) :
    (finalizeE tx ex).refunded =
      min ((tx.gas - ex.gas) / 2)
        (f.sub.refunds + f.sched.suicideRefundGas * f.sub.suicides.length) ∧
    (finalizeE tx ex).gas = ex.gas + (finalizeE tx ex).refunded ∧
    (finalizeE tx ex).st.balance s =
      ex.st.balance s + (ex.gas + (finalizeE tx ex).refunded) * tx.gasPrice ∧
    (finalizeE tx ex).st.balance ex.envInfo.author =
      ex.st.balance ex.envInfo.author +
        (tx.gas - ex.gas - (finalizeE tx ex).refunded) * tx.gasPrice ∧
    (finalizeE tx ex).refunded ≤ (tx.gas - ex.gas) / 2 ∧
    (tx.gas - (finalizeE tx ex).gas) + ex.gas + (finalizeE tx ex).refunded = tx.gas := by
  have hrefunded : (finalizeE tx ex).refunded =
      min ((tx.gas - ex.gas) / 2)
        (f.sub.refunds + f.sched.suicideRefundGas * f.sub.suicides.length) := by
    simp [finalizeE, hext, htop, hs, refunded_setRes]
  have hrle : (finalizeE tx ex).refunded ≤ (tx.gas - ex.gas) / 2 := by
    rw [hrefunded]
    exact Nat.min_le_left _ _
  have hgas : (finalizeE tx ex).gas = ex.gas + (finalizeE tx ex).refunded := by
    rw [hrefunded]
    simp [finalizeE, hext, htop, hs, gas_setRes, refunded_setRes]
  have hsum : ex.gas + (finalizeE tx ex).refunded ≤ tx.gas := by
    have h1 : (tx.gas - ex.gas) / 2 ≤ tx.gas - ex.gas := Nat.div_le_self _ _
    omega
  refine ⟨hrefunded, hgas, ?_, ?_, hrle, by omega⟩
  · rw [hrefunded]
    simp only [finalizeE, hext, htop, hs, if_true, st_setRes]
    simp only [Option.getD_some]
    rw [balance_foldl_kill _ _ hskill,
      balance_addBalance_ne _ _ _ hsa,
      balance_addBalance_self]
  · rw [hrefunded]
    simp only [finalizeE, hext, htop, hs, if_true, st_setRes]
    simp only [Option.getD_some]
    rw [balance_foldl_kill _ _ hakill,
      balance_addBalance_self,
      balance_addBalance_ne _ _ _ (Ne.symm hsa), Nat.sub_sub]

/-- Witness for C3: `exC3` (60,000 of 100,000 gas remaining, one suicide
worth a 24,000 refund capped at 20,000). -/
theorem c3_finalize_accounting_witness :
    (exC3.ext = some extC3 ∧ exC3.isTop = true ∧ exC3.gas ≤ 100000 ∧
      (1 : Address) ≠ exC3.envInfo.author ∧ (1 : Address) ∉ extC3.sub.suicides ∧
      exC3.envInfo.author ∉ extC3.sub.suicides) ∧
    ((finalizeE ⟨5, 1, 100000, some 2, 0, [], some 1⟩ exC3).refunded =
      min ((100000 - exC3.gas) / 2)
        (extC3.sub.refunds + extC3.sched.suicideRefundGas * extC3.sub.suicides.length) ∧
    (finalizeE ⟨5, 1, 100000, some 2, 0, [], some 1⟩ exC3).gas =
      exC3.gas + (finalizeE ⟨5, 1, 100000, some 2, 0, [], some 1⟩ exC3).refunded ∧
    (finalizeE ⟨5, 1, 100000, some 2, 0, [], some 1⟩ exC3).st.balance 1 =
      exC3.st.balance 1 +
        (exC3.gas + (finalizeE ⟨5, 1, 100000, some 2, 0, [], some 1⟩ exC3).refunded) * 1 ∧
    (finalizeE ⟨5, 1, 100000, some 2, 0, [], some 1⟩ exC3).st.balance exC3.envInfo.author =
      exC3.st.balance exC3.envInfo.author +
        (100000 - exC3.gas -
          (finalizeE ⟨5, 1, 100000, some 2, 0, [], some 1⟩ exC3).refunded) * 1 ∧
    (finalizeE ⟨5, 1, 100000, some 2, 0, [], some 1⟩ exC3).refunded ≤ (100000 - exC3.gas) / 2 ∧
    (100000 - (finalizeE ⟨5, 1, 100000, some 2, 0, [], some 1⟩ exC3).gas) + exC3.gas +
      (finalizeE ⟨5, 1, 100000, some 2, 0, [], some 1⟩ exC3).refunded = 100000) :=
  ⟨⟨rfl, rfl, by decide, by decide, by decide, by decide⟩,
    c3_finalize_accounting ⟨5, 1, 100000, some 2, 0, [], some 1⟩ exC3 extC3 1 rfl rfl rfl
      (by decide) (by decide) (by decide) (by decide)⟩

/-! ### Claim C7 -/

theorem st_revertE (ex : Exec) : (revertE ex).st = ex.st.rollback ex.savepoint := by
  unfold revertE
  cases ex.ext <;> rfl

theorem callTail_ok_savepoint_reverts {p : CallParameters} {ex : Exec} {b : Bool}
    {ex' : Exec} (hok : callTail p ex = .ok (b, ex')) :
    ex'.savepoint = ex.savepoint ∧ RevertsTo ex'.st ex.st := by
  simp only [callTail] at hok
  generalize hex1 : (if ex.st.addressInUse p.receiveAddress = true then ex
      else { ex with deleteAddresses := p.receiveAddress :: ex.deleteAddresses }) = ex1 at hok
  have hst1 : ex1.st = ex.st := by
    rw [← hex1]
    split <;> rfl
  have hsp1 : ex1.savepoint = ex.savepoint := by
    rw [← hex1]
    split <;> rfl
  rw [hst1] at hok
  cases htr : ex.st.transferBalance p.senderAddress p.receiveAddress p.valueTransfer with
  | error e =>
    simp only [htr] at hok
    exact absurd hok (by simp)
  | ok st2 =>
    simp only [htr] at hok
    injection hok with hok
    injection hok with hok1 hok2
    rw [← hok2]
    exact ⟨hsp1, revertsTo_transferBalance htr⟩

theorem callE_ok_savepoint_reverts {se : SealEngine} {sched : Schedule}
    {p : CallParameters} {gasPrice : Nat} {origin : Address} {ex : Exec} {b : Bool}
    {ex' : Exec} (htop : ex.isTop = true)
    (hok : callE se sched p gasPrice origin ex = .ok (b, ex')) :
    ex'.savepoint = (ex.st.incNonce p.senderAddress).savepoint ∧
    RevertsTo ex'.st (ex.st.incNonce p.senderAddress) := by
  unfold callE at hok
  simp only [htop, if_true] at hok
  split at hok
  · -- precompiled
    split at hok
    · -- gas < cost: OutOfGasBase short-circuit
      split at hok
      · injection hok with hok
        injection hok with hok1 hok2
        rw [← hok2]
        exact ⟨rfl, revertsTo_addBalance _ _ 0⟩
      · injection hok with hok
        injection hok with hok1 hok2
        rw [← hok2]
        exact ⟨rfl, revertsTo_refl _⟩
    · -- precompile executed, then the shared tail
      obtain ⟨h1, h2⟩ := callTail_ok_savepoint_reverts hok
      refine ⟨?_, ?_⟩
      · rw [h1]
        split <;> rfl
      · revert h2
        split <;> (intro h2; exact h2)
  · -- plain code (ExtVM frame or no code), then the shared tail
    obtain ⟨h1, h2⟩ := callTail_ok_savepoint_reverts hok
    refine ⟨?_, ?_⟩
    · rw [h1]
      split <;> rfl
    · revert h2
      split <;> (intro h2; exact h2)

theorem createE_ok_savepoint_reverts {crypto : Crypto} {se : SealEngine} {sched : Schedule}
    {sender : Address} {endowment gasPrice gas : Nat} {initCode : Bytes} {origin : Address}
    {ex : Exec} {b : Bool} {ex' : Exec}
    (hok : createE crypto se sched sender endowment gasPrice gas initCode origin ex =
      .ok (b, ex')) :
    ex'.savepoint = (ex.st.incNonce sender).savepoint ∧
    RevertsTo ex'.st (ex.st.incNonce sender) := by
  unfold createE at hok
  simp only [] at hok
  cases htr : (ex.st.incNonce sender).transferBalance sender
      (crypto.right160 (crypto.sha3 (rlpList2 sender (ex.st.getNonce sender)))) endowment with
  | error e =>
    simp only [htr] at hok
    exact absurd hok (by simp)
  | ok st2 =>
    simp only [htr] at hok
    have hrev2 : RevertsTo st2 (ex.st.incNonce sender) := revertsTo_transferBalance htr
    by_cases hfork : se.eip158ForkBlock ≤ ex.envInfo.number <;>
      simp only [hfork, if_true, if_false] at hok <;>
      by_cases hempty : initCode.isEmpty = true <;>
        simp only [hempty, if_true, if_false] at hok <;>
        (injection hok with hok; injection hok with hok1 hok2; rw [← hok2];
         refine ⟨rfl, ?_⟩; dsimp only) <;>
        (try split) <;>
        first
          | exact revertsTo_trans (revertsTo_setNewCode _ _ _)
              (revertsTo_trans (revertsTo_incNonce _ _) hrev2)
          | exact revertsTo_trans (revertsTo_incNonce _ _) hrev2
          | exact revertsTo_trans (revertsTo_setNewCode _ _ _) hrev2
          | exact hrev2

/-- Claim C7: in both Executive::call (for a top-level transaction frame)
and Executive::create, the sender's nonce is incremented strictly before
`m_savepoint = state.savepoint()` is recorded; consequently a later
revert, which rolls back to `m_savepoint`, leaves both the sender-nonce
increment and the up-front gas-cost debit of execute() intact: after
`executeTx` followed by `revertE`, the sender's nonce is one higher and
the sender's balance is lower by exactly `m_gasCost`. -/
theorem c7_nonce_and_debit_survive_revert (crypto : Crypto) (se : SealEngine)
    (sched : Schedule) (tx : Transaction) (baseGas : Nat) (ex : Exec) (s : Address)
    (hs : tx.sender = some s) (htop : ex.isTop = true)
    (hok : retOk (executeTx crypto se sched tx baseGas ex) = true) :
    (revertE (retExec ex (executeTx crypto se sched tx baseGas ex))).st.getNonce s =
      ex.st.getNonce s + 1 ∧
    (revertE (retExec ex (executeTx crypto se sched tx baseGas ex))).st.balance s =
      ex.st.balance s - ex.gasCost := by
  unfold executeTx at hok ⊢
  simp only [hs] at hok ⊢
  cases hsub : ex.st.subBalance s ex.gasCost with
  | error e =>
    simp only [hsub, retOk] at hok
    exact absurd hok (by simp)
  | ok st1 =>
    simp only [hsub] at hok ⊢
    cases hto : tx.toAddr with
    | none =>
      simp only [hto] at hok ⊢
      cases hdisp : createE crypto se sched s tx.value tx.gasPrice (tx.gas - baseGas) tx.data s
          { ex with st := st1 } with
      | error e =>
        simp only [hdisp, retOk] at hok
        exact absurd hok (by simp)
      | ok pr =>
        obtain ⟨b, ex'⟩ := pr
        obtain ⟨hsp, hrev⟩ := createE_ok_savepoint_reverts hdisp
        simp only [] at hsp hrev
        simp only [hdisp, retExec, st_revertE, hsp]
        rw [rollback_revertsTo hrev]
        constructor
        · rw [getNonce_incNonce_self, subBalance_ok_getNonce hsub]
        · rw [balance_incNonce, subBalance_ok_balance hsub]
    | some r =>
      simp only [hto] at hok ⊢
      cases hdisp : callE se sched
          { senderAddress := s, codeAddress := r, receiveAddress := r,
            valueTransfer := tx.value, apparentValue := tx.value,
            gas := tx.gas - baseGas, data := tx.data } tx.gasPrice s
          { ex with st := st1 } with
      | error e =>
        simp only [hdisp, retOk] at hok
        exact absurd hok (by simp)
      | ok pr =>
        obtain ⟨b, ex'⟩ := pr
        obtain ⟨hsp, hrev⟩ := callE_ok_savepoint_reverts (by simpa using htop) hdisp
        simp only [] at hsp hrev
        simp only [hdisp, retExec, st_revertE, hsp]
        rw [rollback_revertsTo hrev]
        constructor
        · rw [getNonce_incNonce_self, subBalance_ok_getNonce hsub]
        · rw [balance_incNonce, subBalance_ok_balance hsub]

/-- Witness for C7: a concrete top-level call from account 1 to the code
account 2 (value 100), after the 21,000 wei debit; reverting after
dispatch keeps nonce 6 and the debit. -/
theorem c7_nonce_and_debit_survive_revert_witness :
    (⟨5, 1, 30000, some 2, 100, [], some 1⟩ : Transaction).sender = some 1 ∧
    exC7.isTop = true ∧
    retOk (executeTx cryptoW seW schedW ⟨5, 1, 30000, some 2, 100, [], some 1⟩ 21000 exC7) =
      true ∧
    ((revertE (retExec exC7
        (executeTx cryptoW seW schedW ⟨5, 1, 30000, some 2, 100, [], some 1⟩ 21000
          exC7))).st.getNonce 1 = exC7.st.getNonce 1 + 1 ∧
      (revertE (retExec exC7
        (executeTx cryptoW seW schedW ⟨5, 1, 30000, some 2, 100, [], some 1⟩ 21000
          exC7))).st.balance 1 = exC7.st.balance 1 - exC7.gasCost) :=
  ⟨rfl, rfl, by decide,
    c7_nonce_and_debit_survive_revert cryptoW seW schedW
      ⟨5, 1, 30000, some 2, 100, [], some 1⟩ 21000 exC7 1 rfl rfl (by decide)⟩

/-! ### Claim C8 -/

theorem stateTrie_commitStep_ne (R : List (Nat × Bytes) → Nat) (acc : CommitOut)
    (e : Nat × CacheAccount) {a : Nat} (h : a ≠ e.1) :
    alookup a (commitStep R acc e).stateTrie = alookup a acc.stateTrie := by
  unfold commitStep
  split
  · split
    · simp [alookup_aremove_ne h]
    · split <;> simp [alookup_aset_ne h]
  · rfl

theorem db_commitStep (R : List (Nat × Bytes) → Nat) (acc : CommitOut)
    (e : Nat × CacheAccount) :
    (commitStep R acc e).db =
      (if e.2.isDirty = true ∧ e.2.isAlive = true ∧ e.2.hasNewCode = true then
        aset e.2.codeHash e.2.code acc.db
      else acc.db) ∧
    (commitStep R acc e).codeSizes =
      (if e.2.isDirty = true ∧ e.2.isAlive = true ∧ e.2.hasNewCode = true then
        aset e.2.codeHash e.2.code.length acc.codeSizes
      else acc.codeSizes) := by
  unfold commitStep
  split <;> rename_i hd
  · split <;> rename_i ha
    · constructor <;> simp [hd, *] <;> intro hh <;> simp_all
    · split <;> rename_i hc
      · constructor <;> simp_all
      · constructor <;> simp_all
  · constructor <;> simp_all

theorem ret_commitStep (R : List (Nat × Bytes) → Nat) (acc : CommitOut)
    (e : Nat × CacheAccount) :
    (commitStep R acc e).ret = if e.2.isDirty = true then e.1 :: acc.ret else acc.ret := by
  unfold commitStep
  split <;> rename_i hd
  · split
    · simp [hd]
    · split <;> simp [hd]
  · simp_all

theorem stateTrie_foldl_not_mem (R : List (Nat × Bytes) → Nat)
    (cache : List (Nat × CacheAccount)) {a : Nat} (h : a ∉ cache.map Prod.fst)
    (acc : CommitOut) :
    alookup a (cache.foldl (commitStep R) acc).stateTrie = alookup a acc.stateTrie := by
  induction cache generalizing acc with
  | nil => rfl
  | cons e rest ih =>
    simp only [List.map_cons, List.mem_cons, not_or] at h
    rw [List.foldl_cons, ih h.2, stateTrie_commitStep_ne R acc e h.1]

theorem stateTrie_foldl_clean (R : List (Nat × Bytes) → Nat)
    (cache : List (Nat × CacheAccount)) {a : Nat} {ac : CacheAccount}
    (hmem : (a, ac) ∈ cache) (hnd : (cache.map Prod.fst).Nodup)
    (hcl : ac.isDirty = false) (acc : CommitOut) :
    alookup a (cache.foldl (commitStep R) acc).stateTrie = alookup a acc.stateTrie := by
  induction cache generalizing acc with
  | nil => simp at hmem
  | cons e rest ih =>
    simp only [List.map_cons, List.nodup_cons] at hnd
    rcases List.mem_cons.mp hmem with heq | hrest
    · subst heq
      have hnm : a ∉ rest.map Prod.fst := by
        simpa using hnd.1
      rw [List.foldl_cons, stateTrie_foldl_not_mem R rest hnm]
      simp [commitStep, hcl]
    · have hne : a ≠ e.1 := by
        intro hh
        exact absurd (hh ▸ (List.mem_map_of_mem Prod.fst hrest)) (by simpa using hnd.1)
      rw [List.foldl_cons, ih hrest hnd.2, stateTrie_commitStep_ne R acc e hne]

theorem stateTrie_foldl_dead (R : List (Nat × Bytes) → Nat)
    (cache : List (Nat × CacheAccount)) {a : Nat} {ac : CacheAccount}
    (hmem : (a, ac) ∈ cache) (hnd : (cache.map Prod.fst).Nodup)
    (hd : ac.isDirty = true) (ha : ac.isAlive = false) (acc : CommitOut) :
    alookup a (cache.foldl (commitStep R) acc).stateTrie = none := by
  induction cache generalizing acc with
  | nil => simp at hmem
  | cons e rest ih =>
    simp only [List.map_cons, List.nodup_cons] at hnd
    rcases List.mem_cons.mp hmem with heq | hrest
    · subst heq
      have hnm : a ∉ rest.map Prod.fst := by
        simpa using hnd.1
      rw [List.foldl_cons, stateTrie_foldl_not_mem R rest hnm]
      simp [commitStep, hd, ha]
    · have hne : a ≠ e.1 := by
        intro hh
        exact absurd (hh ▸ (List.mem_map_of_mem Prod.fst hrest)) (by simpa using hnd.1)
      rw [List.foldl_cons, ih hrest hnd.2]

theorem stateTrie_foldl_alive (R : List (Nat × Bytes) → Nat)
    (cache : List (Nat × CacheAccount)) {a : Nat} {ac : CacheAccount}
    (hmem : (a, ac) ∈ cache) (hnd : (cache.map Prod.fst).Nodup)
    (hd : ac.isDirty = true) (ha : ac.isAlive = true) (acc : CommitOut) :
    alookup a (cache.foldl (commitStep R) acc).stateTrie =
      some (accountStreamRLP R ac) := by
  induction cache generalizing acc with
  | nil => simp at hmem
  | cons e rest ih =>
    simp only [List.map_cons, List.nodup_cons] at hnd
    rcases List.mem_cons.mp hmem with heq | hrest
    · subst heq
      have hnm : a ∉ rest.map Prod.fst := by
        simpa using hnd.1
      rw [List.foldl_cons, stateTrie_foldl_not_mem R rest hnm]
      unfold commitStep
      have hd2 : ((a, ac).2.isDirty = true) := hd
      have ha2 : ¬(¬(a, ac).2.isAlive = true) := by simp [ha]
      rw [if_pos hd2, if_neg ha2]
      split <;> simp
    · have hne : a ≠ e.1 := by
        intro hh
        exact absurd (hh ▸ (List.mem_map_of_mem Prod.fst hrest)) (by simpa using hnd.1)
      rw [List.foldl_cons, ih hrest hnd.2]

theorem db_foldl_preserve (R : List (Nat × Bytes) → Nat)
    (cache : List (Nat × CacheAccount)) {h : Nat} {c : Bytes}
    (hsame : ∀ q ∈ cache, q.2.hasNewCode = true → q.2.codeHash = h → q.2.code = c)
    (acc : CommitOut) (hdb : alookup h acc.db = some c)
    (hcs : alookup h acc.codeSizes = some c.length) :
    alookup h (cache.foldl (commitStep R) acc).db = some c ∧
    alookup h (cache.foldl (commitStep R) acc).codeSizes = some c.length := by
  induction cache generalizing acc with
  | nil => exact ⟨hdb, hcs⟩
  | cons e rest ih =>
    rw [List.foldl_cons]
    apply ih (fun q hq => hsame q (List.mem_cons_of_mem e hq))
    · rw [(db_commitStep R acc e).1]
      split <;> rename_i hcond
      · by_cases hh : e.2.codeHash = h
        · have hc := hsame e (List.mem_cons_self e rest) hcond.2.2 hh
          rw [hc, hh]
          simp
        · rw [alookup_aset_ne (fun hx => hh hx.symm)]
          exact hdb
      · exact hdb
    · rw [(db_commitStep R acc e).2]
      split <;> rename_i hcond
      · by_cases hh : e.2.codeHash = h
        · have hc := hsame e (List.mem_cons_self e rest) hcond.2.2 hh
          rw [hc, hh]
          simp
        · rw [alookup_aset_ne (fun hx => hh hx.symm)]
          exact hcs
      · exact hcs

theorem db_foldl_newCode (R : List (Nat × Bytes) → Nat)
    (cache : List (Nat × CacheAccount)) {a : Nat} {ac : CacheAccount}
    (hmem : (a, ac) ∈ cache)
    (hcode : ∀ p ∈ cache, ∀ q ∈ cache, p.2.hasNewCode = true → q.2.hasNewCode = true →
      p.2.codeHash = q.2.codeHash → p.2.code = q.2.code)
    (hd : ac.isDirty = true) (ha : ac.isAlive = true) (hnc : ac.hasNewCode = true)
    (acc : CommitOut) :
    alookup ac.codeHash (cache.foldl (commitStep R) acc).db = some ac.code ∧
    alookup ac.codeHash (cache.foldl (commitStep R) acc).codeSizes =
      some ac.code.length := by
  induction cache generalizing acc with
  | nil => simp at hmem
  | cons e rest ih =>
    rcases List.mem_cons.mp hmem with heq | hrest
    · subst heq
      rw [List.foldl_cons]
      apply db_foldl_preserve R rest
      · intro q hq hq1 hq2
        exact hcode q (List.mem_cons_of_mem _ hq) (a, ac) (List.mem_cons_self _ _) hq1 hnc
          hq2
      · rw [(db_commitStep R acc (a, ac)).1]
        simp [hd, ha, hnc]
      · rw [(db_commitStep R acc (a, ac)).2]
        simp [hd, ha, hnc]
    · rw [List.foldl_cons]
      exact ih hrest
        (fun p hp q hq => hcode p (List.mem_cons_of_mem _ hp) q (List.mem_cons_of_mem _ hq))
        _

theorem ret_foldl_mem (R : List (Nat × Bytes) → Nat)
    (cache : List (Nat × CacheAccount)) (a : Nat) (acc : CommitOut) :
    (a ∈ (cache.foldl (commitStep R) acc).ret ↔
      a ∈ acc.ret ∨ ∃ ac, (a, ac) ∈ cache ∧ ac.isDirty = true) := by
  induction cache generalizing acc with
  | nil => simp
  | cons e rest ih =>
    rw [List.foldl_cons, ih (commitStep R acc e), ret_commitStep]
    by_cases hd : e.2.isDirty = true
    · simp only [hd, if_true, List.mem_cons]
      constructor
      · rintro ((rfl | hacc) | ⟨ac, hac, hdac⟩)
        · exact Or.inr ⟨e.2, Or.inl (by simp), hd⟩
        · exact Or.inl hacc
        · exact Or.inr ⟨ac, Or.inr hac, hdac⟩
      · rintro (hacc | ⟨ac, (heq | hac), hdac⟩)
        · exact Or.inl (Or.inr hacc)
        · exact Or.inl (Or.inl (congrArg Prod.fst heq))
        · exact Or.inr ⟨ac, hac, hdac⟩
    · simp only [hd, if_false]
      constructor
      · rintro (hacc | ⟨ac, hac, hdac⟩)
        · exact Or.inl hacc
        · exact Or.inr ⟨ac, List.mem_cons_of_mem _ hac, hdac⟩
      · rintro (hacc | ⟨ac, hac, hdac⟩)
        · exact Or.inl hacc
        · rcases List.mem_cons.mp hac with heq | hac2
          · exact absurd (congrArg Prod.snd heq ▸ hdac) hd
          · exact Or.inr ⟨ac, hac2, hdac⟩

/-- Claim C8: the commit function processes exactly the dirty accounts of
the cache: each dirty non-alive account is removed from the state trie;
each dirty alive account has its storage trie rebuilt by applying its
overlay (inserting rlp-encoded values for non-zero overlay entries,
removing keys whose overlay value is 0 -- this is `accountStreamRLP`,
whose storage root is `trieRoot (overlayApply base overlay)` when the
overlay is non-empty) and is stored under its address as the 4-tuple
`rlp([nonce, balance, storageRoot, codeHash])`; if the account has new
code, `(codeHash → code)` is inserted into the underlying database and the
code-size cache is updated with the code's size; clean accounts and
addresses outside the cache are untouched, and the returned set is exactly
the dirty addresses. -/
theorem c8_commit_processes_dirty (R : List (Nat × Bytes) → Nat)
    (cache : List (Nat × CacheAccount)) (st0 db0 : List (Nat × Bytes))
    (cs0 : List (Nat × Nat)) (hnd : (cache.map Prod.fst).Nodup)
    (hcode : ∀ p ∈ cache, ∀ q ∈ cache, p.2.hasNewCode = true → q.2.hasNewCode = true →
      p.2.codeHash = q.2.codeHash → p.2.code = q.2.code) :
    (∀ a : Nat, a ∉ cache.map Prod.fst →
      alookup a (commitCache R cache st0 db0 cs0).stateTrie = alookup a st0) ∧
    (∀ a ac, (a, ac) ∈ cache → ac.isDirty = false →
      alookup a (commitCache R cache st0 db0 cs0).stateTrie = alookup a st0) ∧
    (∀ a ac, (a, ac) ∈ cache → ac.isDirty = true → ac.isAlive = false →
      alookup a (commitCache R cache st0 db0 cs0).stateTrie = none) ∧
    (∀ a ac, (a, ac) ∈ cache → ac.isDirty = true → ac.isAlive = true →
      alookup a (commitCache R cache st0 db0 cs0).stateTrie =
        some (accountStreamRLP R ac)) ∧
    (∀ a ac, (a, ac) ∈ cache → ac.isDirty = true → ac.isAlive = true →
      ac.hasNewCode = true →
      alookup ac.codeHash (commitCache R cache st0 db0 cs0).db = some ac.code ∧
      alookup ac.codeHash (commitCache R cache st0 db0 cs0).codeSizes =
        some ac.code.length) ∧
    (∀ a : Nat, a ∈ (commitCache R cache st0 db0 cs0).ret ↔
      ∃ ac, (a, ac) ∈ cache ∧ ac.isDirty = true) := by
  refine ⟨?_, ?_, ?_, ?_, ?_, ?_⟩
  · intro a h
    exact stateTrie_foldl_not_mem R cache h _
  · intro a ac hmem hcl
    exact stateTrie_foldl_clean R cache hmem hnd hcl _
  · intro a ac hmem hd ha
    exact stateTrie_foldl_dead R cache hmem hnd hd ha _
  · intro a ac hmem hd ha
    exact stateTrie_foldl_alive R cache hmem hnd hd ha _
  · intro a ac hmem hd ha hnc
    exact db_foldl_newCode R cache hmem hcode hd ha hnc _
  · intro a
    rw [commitCache, ret_foldl_mem]
    simp

/-- Witness for C8 on `cacheW` over an initial trie holding accounts 8
and 9. -/
theorem c8_commit_processes_dirty_witness :
    ((cacheW.map Prod.fst).Nodup ∧
      ∀ p ∈ cacheW, ∀ q ∈ cacheW, p.2.hasNewCode = true → q.2.hasNewCode = true →
        p.2.codeHash = q.2.codeHash → p.2.code = q.2.code) ∧
    (∀ a ac, (a, ac) ∈ cacheW → ac.isDirty = true → ac.isAlive = true →
      alookup a (commitCache trieRootW cacheW [(8, [1]), (9, [2])] [] []).stateTrie =
        some (accountStreamRLP trieRootW ac)) :=
  ⟨⟨by decide, by decide⟩,
    (c8_commit_processes_dirty trieRootW cacheW [(8, [1]), (9, [2])] [] [] (by decide)
      (by decide)).2.2.2.1⟩

end EthExec
